import Mathlib

/-!
# Verification of the Sudoku puzzle engine

Shallow embedding of the core of the `sudoku` repository:
`generator.py` (randomized board solver, uniqueness counter, puzzle carver,
difficulty table) and `validator.py` (legality check, diffing).

Conventions of the embedding:
* A Python `list[list[int]]` board is a `List (List Int)`.
* Reading a cell out of physical range returns the junk value `0`, and writing
  out of range leaves the grid unchanged; every theorem about the generator
  constrains indices to be in range so this convention is never exercised.
  The validator, whose behaviour on malformed boards is itself under scrutiny,
  is embedded with `Option`: `none` models a raised `IndexError`.
* `random.shuffle` outcomes are passed in as explicit parameters (a coordinate
  list for the carver, a stream of candidate-digit lists for the solver);
  theorems quantify over all such outcomes.
* Recursion in the two backtracking searches is bounded by explicit fuel;
  fuel `82` exceeds the maximum possible recursion depth (at most 81 empty
  cells on a 9 by 9 board), and the fuel-exhaustion branch is proved
  unreachable in the lemmas below.
-/

namespace Sudoku

/-- A Sudoku board: a list of rows of integer cell values. -/
abbrev Grid := List (List Int)

/-- `board[row][col]`, with junk value `0` when out of physical range. -/
def cell (b : Grid) (r c : Nat) : Int := (b.getD r []).getD c 0

/-- `board[row][col] = v`, a no-op when out of physical range. -/
def setCell (b : Grid) (r c : Nat) (v : Int) : Grid :=
  b.set r ((b.getD r []).set c v)

/-- The grid is exactly 9 by 9 (the data-model invariant of the spec). -/
def Dims9 (b : Grid) : Prop := b.length = 9 ∧ ∀ row ∈ b, row.length = 9

/-- The digits `1..9`, i.e. Python's `range(1, 10)`. -/
def digits : List Int := [1, 2, 3, 4, 5, 6, 7, 8, 9]

/-- The nine cells of row `r` (cells `(r, 0) .. (r, 8)`). -/
def rowCells (b : Grid) (r : Nat) : List Int :=
  (List.range 9).map fun c => cell b r c

/-- The nine cells of column `c`, as built by both
`generator.is_valid` (`[board[i][col] for i in range(9)]`) and, on a 9 by 9
board, `validator.get_column`. -/
def colCells (b : Grid) (c : Nat) : List Int :=
  (List.range 9).map fun r => cell b r c

/-- The nine cells of the 3 by 3 block containing `(r, c)`, row-major, with
`start_row = 3 * (r / 3)` and `start_col = 3 * (c / 3)` as in the source. -/
def boxCells (b : Grid) (r c : Nat) : List Int :=
  (List.range 3).flatMap fun i =>
    (List.range 3).map fun j => cell b (3 * (r / 3) + i) (3 * (c / 3) + j)

/-- Spec-level legality: no digit occurs more than once in any row, column or
3 by 3 subgrid. -/
def LegalGrid (b : Grid) : Prop :=
  ∀ v ∈ digits,
    (∀ r < 9, (rowCells b r).count v ≤ 1) ∧
    (∀ c < 9, (colCells b c).count v ≤ 1) ∧
    (∀ r < 9, ∀ c < 9, (boxCells b r c).count v ≤ 1)

/-- Every cell of the 9 by 9 area is filled (non-zero). -/
def FullGrid (b : Grid) : Prop := ∀ r < 9, ∀ c < 9, cell b r c ≠ 0

/-- Every cell value lies in `[0, 9]`. -/
def CellsInRange (b : Grid) : Prop :=
  ∀ r < 9, ∀ c < 9, 0 ≤ cell b r c ∧ cell b r c ≤ 9

/-- Spec-level notion used by the claims: `x` is a legal completion of `b`,
i.e. a fully filled legal 9 by 9 grid that agrees with `b` on every non-zero
cell of `b`. -/
def IsCompletion (b x : Grid) : Prop :=
  Dims9 x ∧ (∀ r < 9, ∀ c < 9, 1 ≤ cell x r c ∧ cell x r c ≤ 9) ∧
    LegalGrid x ∧ (∀ r < 9, ∀ c < 9, cell b r c ≠ 0 → cell x r c = cell b r c)

/-- Spec-level notion of a solved grid: full, legal, in range, 9 by 9. -/
def SolvedGrid (b : Grid) : Prop :=
  Dims9 b ∧ CellsInRange b ∧ LegalGrid b ∧ FullGrid b

/-- Number of empty cells in the 9 by 9 area; used as the fuel measure of the
backtracking searches. -/
def numZeros (b : Grid) : Nat :=
  ((Finset.range 81).filter fun k => cell b (k / 9) (k % 9) = 0).card

instance (b : Grid) : Decidable (Dims9 b) :=
  decidable_of_iff (b.length = 9 ∧ ∀ row ∈ b, row.length = 9) Iff.rfl

instance (b : Grid) : Decidable (LegalGrid b) :=
  decidable_of_iff (∀ v ∈ digits,
    (∀ r < 9, (rowCells b r).count v ≤ 1) ∧
    (∀ c < 9, (colCells b c).count v ≤ 1) ∧
    (∀ r < 9, ∀ c < 9, (boxCells b r c).count v ≤ 1)) Iff.rfl

instance (b : Grid) : Decidable (FullGrid b) :=
  decidable_of_iff (∀ r < 9, ∀ c < 9, cell b r c ≠ 0) Iff.rfl

instance (b : Grid) : Decidable (CellsInRange b) :=
  decidable_of_iff (∀ r < 9, ∀ c < 9, 0 ≤ cell b r c ∧ cell b r c ≤ 9) Iff.rfl

instance (b x : Grid) : Decidable (IsCompletion b x) :=
  decidable_of_iff (Dims9 x ∧ (∀ r < 9, ∀ c < 9, 1 ≤ cell x r c ∧ cell x r c ≤ 9) ∧
    LegalGrid x ∧ (∀ r < 9, ∀ c < 9, cell b r c ≠ 0 → cell x r c = cell b r c)) Iff.rfl

instance (b : Grid) : Decidable (SolvedGrid b) :=
  decidable_of_iff (Dims9 b ∧ CellsInRange b ∧ LegalGrid b ∧ FullGrid b) Iff.rfl

/-! ## `generator.py` -/

/-- `is_valid(board, row, col, num)` from `generator.py`: the candidate `num`
does not already occur in row `row` (the physical row list, `num in
board[row]`), in column `col`, or in the 3 by 3 block of `(row, col)`. -/
def isValidMove (b : Grid) (row col : Nat) (num : Int) : Bool :=
  if num ∈ b.getD row [] then false
  else if num ∈ colCells b col then false
  else if num ∈ boxCells b row col then false
  else true

/-- The row-major scan for the first empty cell shared by `solve_board` and
`count_solutions` (`for row in range(9): for col in range(9): if b[row][col] == 0`). -/
def findEmpty (b : Grid) : Option (Nat × Nat) :=
  (List.range 9).findSome? fun r =>
    (List.range 9).findSome? fun c =>
      if cell b r c = 0 then some (r, c) else none

/-- `count_solutions` from `generator.py`, fuel-bounded.  At the first empty
cell it tries every digit `1..9` in order, recursing on each valid placement
with no early termination; the pure sum equals the final value of the
`nonlocal solutions` counter.  A full board contributes `1`. -/
def countSolutionsF : Nat → Grid → Nat
  | 0, _ => 0
  | fuel + 1, b =>
    match findEmpty b with
    | none => 1
    | some (r, c) =>
      (digits.map fun num =>
        if isValidMove b r c num then countSolutionsF fuel (setCell b r c num)
        else 0).sum

/-- The solution counter with sufficient fuel (at most 81 empty cells). -/
def countSolutions (b : Grid) : Nat := countSolutionsF 82 b

/-- `has_unique_solution(board)` from `generator.py`: `solutions == 1`.
(The Python function runs `count_solutions` on a row-by-row copy of the
board, so the argument itself is never mutated.) -/
def hasUniqueSolution (b : Grid) : Bool := countSolutions b == 1

/-- Proof device: the list of boards reached at the `solutions += 1` leaves of
`count_solutions`, in search order. -/
def solutionsF : Nat → Grid → List Grid
  | 0, _ => []
  | fuel + 1, b =>
    match findEmpty b with
    | none => [b]
    | some (r, c) =>
      digits.flatMap fun num =>
        if isValidMove b r c num then solutionsF fuel (setCell b r c num)
        else []

/-- The carving loop of `create_puzzle` from `generator.py`: for each shuffled
coordinate, tentatively zero the cell, keep the removal if the board still has
a unique solution and otherwise restore the removed value; stop early once
`max_empty_cells` cells are empty. -/
def createPuzzleGo (maxEmpty : Nat) : List (Nat × Nat) → Grid → Nat → Grid
  | [], p, _ => p
  | (r, c) :: rest, p, numEmpty =>
    if maxEmpty ≤ numEmpty then p
    else if hasUniqueSolution (setCell p r c 0) then
      createPuzzleGo maxEmpty rest (setCell p r c 0) (numEmpty + 1)
    else
      createPuzzleGo maxEmpty rest (setCell (setCell p r c 0) r c (cell p r c)) numEmpty

/-- `create_puzzle(board, max_empty_cells)` from `generator.py`.  The shuffled
list of all 81 coordinates is passed in as the parameter `cells`. -/
def createPuzzle (board : Grid) (maxEmpty : Nat) (cells : List (Nat × Nat)) : Grid :=
  createPuzzleGo maxEmpty cells board 0

/-- The candidate loop of `solve_board`: try the shuffled digits in order at
cell `(r, c)`; on a valid placement recurse via `solver` (which threads the
randomness-supply index); return the first successful board, or `none` after
exhausting the candidates. -/
def tryNums (solver : Grid → Nat → Option Grid × Nat) (b : Grid) (r c : Nat) :
    List Int → Nat → Option Grid × Nat
  | [], ix => (none, ix)
  | num :: rest, ix =>
    if isValidMove b r c num then
      match solver (setCell b r c num) ix with
      | (some g, ix2) => (some g, ix2)
      | (none, ix2) => tryNums solver b r c rest ix2
    else tryNums solver b r c rest ix

/-- `solve_board` from `generator.py`, fuel-bounded.  `supply ix` is the
outcome of the `random.shuffle(nums)` performed by the `ix`-th shuffling call;
the index is threaded through the search in consumption order. -/
def solveBoardF (supply : Nat → List Int) : Nat → Grid → Nat → Option Grid × Nat
  | 0, _, ix => (none, ix)
  | fuel + 1, b, ix =>
    match findEmpty b with
    | none => (some b, ix)
    | some (r, c) => tryNums (solveBoardF supply fuel) b r c (supply ix) (ix + 1)

/-- `solve_board(board)` with sufficient fuel; `none` models the
`Literal[False]` return. -/
def solveBoard (supply : Nat → List Int) (b : Grid) : Option Grid :=
  (solveBoardF supply 82 b 0).1

/-- The `difficulty_levels` table of `SudokuGenerator` (Python floats
`0.1 .. 0.9` modelled as the rationals they denote; the `int(81 * f)` results
agree with the float computation at all six entries). -/
def difficulty_levels : List (String × ℚ) :=
  [("very easy", 1/10), ("easy", 3/10), ("medium", 1/2),
   ("hard", 3/5), ("very hard", 7/10), ("extreme", 9/10)]

/-- `SudokuGenerator.__init__`: raise `ValueError` (modelled as
`Except.error`) when the difficulty is not a key of `difficulty_levels`,
before any puzzle-generation work. -/
def sudokuGeneratorInit (difficulty : String) : Except String String :=
  if (difficulty_levels.lookup difficulty).isSome then Except.ok difficulty
  else Except.error ("Invalid difficulty level: " ++ difficulty)

/-- `max_empty_cells = int((9 * 9) * self.difficulty_levels[self.difficulty])`
from `generate_random_sudoku` (truncation of a positive value is the floor). -/
def maxEmptyCellsFor (difficulty : String) : Nat :=
  (⌊(9 * 9 : ℚ) * ((difficulty_levels.lookup difficulty).getD 0)⌋).toNat

/-! ## `validator.py` -/

/-- `SudokuValidator.get_column`: `[row[col_indx] for row in board]`;
`none` models the `IndexError` raised when some row is too short. -/
def getColumn (b : Grid) (colIndx : Nat) : Option (List Int) :=
  b.mapM fun row => row[colIndx]?

/-- `SudokuValidator.get_subgrid`: the nine cells of the 3 by 3 block
containing `(row_indx, col_indx)`, row-major; `none` models the `IndexError`
raised when a probed index is out of bounds. -/
def getSubgrid (b : Grid) (rowIndx colIndx : Nat) : Option (List Int) :=
  ((List.range 3).flatMap fun i =>
    (List.range 3).map fun j =>
      (3 * (rowIndx / 3) + i, 3 * (colIndx / 3) + j)).mapM fun p =>
    (b[p.1]?).bind fun row => row[p.2]?

/-- The inner (per-cell) loop of `SudokuValidator.is_valid_sudoku` on row
`row` (index `rowIndx`), starting at column `colIndx`: `some false` models an
early `return False`, `some true` a completed loop, `none` a raised
`IndexError`. -/
def checkCells (b : Grid) (allowEmpty : Bool) (rowIndx : Nat) (row : List Int) :
    Nat → List Int → Option Bool
  | _, [] => some true
  | colIndx, number :: rest =>
    if colIndx > 8 then some false
    else if number < (if allowEmpty then (0 : Int) else 1) ∨ number > 9 then some false
    else if number = 0 then checkCells b allowEmpty rowIndx row (colIndx + 1) rest
    else if row.count number > 1 then some false
    else
      match getColumn b colIndx with
      | none => none
      | some col =>
        if col.count number > 1 then some false
        else
          match getSubgrid b rowIndx colIndx with
          | none => none
          | some sub =>
            if sub.count number > 1 then some false
            else checkCells b allowEmpty rowIndx row (colIndx + 1) rest

/-- The outer (per-row) loop of `SudokuValidator.is_valid_sudoku`, starting at
row index `rowIndx`. -/
def checkRows (b : Grid) (allowEmpty : Bool) : Nat → List (List Int) → Option Bool
  | _, [] => some true
  | rowIndx, row :: rest =>
    if rowIndx > 8 then some false
    else
      match checkCells b allowEmpty rowIndx row 0 row with
      | some true => checkRows b allowEmpty (rowIndx + 1) rest
      | r => r

/-- `SudokuValidator.is_valid_sudoku(board, allow_empty)`; `some` is a
returned boolean, `none` a raised `IndexError`. -/
def isValidSudoku (b : Grid) (allowEmpty : Bool) : Option Bool :=
  checkRows b allowEmpty 0 b

/-- `SudokuValidator.get_incorrect_squares(solved_board, puzzle_board)`:
the set of coordinates whose `puzzle_board` entry is non-zero and differs from
the `solved_board` entry (`enumerate` modelled by ranging over indices). -/
def getIncorrectSquares (solved puzzle : Grid) : Finset (Nat × Nat) :=
  ((List.range puzzle.length).flatMap fun r =>
    (List.range (puzzle.getD r []).length).filterMap fun c =>
      if cell puzzle r c ≠ 0 ∧ cell puzzle r c ≠ cell solved r c then some (r, c)
      else none).toFinset

/-- The spec-side per-cell condition of `is_valid(grid, allow_empty)`
(section 4.1 of the spec): the value of cell `(r, c)` is in range
`[allow_empty ? 0 : 1, 9]` and, when non-zero, occurs at most once in its
row, its column and its 3 by 3 subgrid. -/
def CellOk (b : Grid) (allowEmpty : Bool) (r c : Nat) : Prop :=
  ((if allowEmpty then (0 : Int) else 1) ≤ cell b r c ∧ cell b r c ≤ 9) ∧
  (cell b r c ≠ 0 →
    (rowCells b r).count (cell b r c) ≤ 1 ∧
    (colCells b c).count (cell b r c) ≤ 1 ∧
    (boxCells b r c).count (cell b r c) ≤ 1)

instance (b : Grid) (allowEmpty : Bool) (r c : Nat) : Decidable (CellOk b allowEmpty r c) :=
  decidable_of_iff (((if allowEmpty then (0 : Int) else 1) ≤ cell b r c ∧ cell b r c ≤ 9) ∧
    (cell b r c ≠ 0 →
      (rowCells b r).count (cell b r c) ≤ 1 ∧
      (colCells b c).count (cell b r c) ≤ 1 ∧
      (boxCells b r c).count (cell b r c) ≤ 1)) Iff.rfl

/-- The spec-side reading of `is_valid(grid, allow_empty)`, for comparison
with `isValidSudoku`: every cell of the 9 by 9 area satisfies `CellOk`. -/
def SpecValid (b : Grid) (allowEmpty : Bool) : Prop :=
  ∀ r < 9, ∀ c < 9, CellOk b allowEmpty r c

instance (b : Grid) (allowEmpty : Bool) : Decidable (SpecValid b allowEmpty) :=
  decidable_of_iff (∀ r < 9, ∀ c < 9, CellOk b allowEmpty r c) Iff.rfl

/-! ## Concrete boards used by witnesses and counterexamples -/

/-- The all-empty starting grid of `generate_random_sudoku`. -/
def emptyGrid : Grid := List.replicate 9 (List.replicate 9 0)

/-- A concrete solved grid. -/
def sampleSolved : Grid :=
  [[1, 2, 3, 4, 5, 6, 7, 8, 9],
   [4, 5, 6, 7, 8, 9, 1, 2, 3],
   [7, 8, 9, 1, 2, 3, 4, 5, 6],
   [2, 1, 4, 3, 6, 5, 8, 9, 7],
   [3, 6, 5, 8, 9, 7, 2, 1, 4],
   [8, 9, 7, 2, 1, 4, 3, 6, 5],
   [5, 3, 1, 6, 4, 2, 9, 7, 8],
   [6, 4, 2, 9, 7, 8, 5, 3, 1],
   [9, 7, 8, 5, 3, 1, 6, 4, 2]]

/-- `sampleSolved` with two disjoint unavoidable rectangles blanked
(cells `(0,0) (0,1) (3,0) (3,1)` holding `1 2 / 2 1` and cells
`(2,3) (2,4) (5,3) (5,4)` holding `1 2 / 2 1`): each rectangle can be
completed in two independent ways, so this board has four legal completions. -/
def fourSolGrid : Grid :=
  [[0, 0, 3, 4, 5, 6, 7, 8, 9],
   [4, 5, 6, 7, 8, 9, 1, 2, 3],
   [7, 8, 9, 0, 0, 3, 4, 5, 6],
   [0, 0, 4, 3, 6, 5, 8, 9, 7],
   [3, 6, 5, 8, 9, 7, 2, 1, 4],
   [8, 9, 7, 0, 0, 4, 3, 6, 5],
   [5, 3, 1, 6, 4, 2, 9, 7, 8],
   [6, 4, 2, 9, 7, 8, 5, 3, 1],
   [9, 7, 8, 5, 3, 1, 6, 4, 2]]

/-- A full board with every cell `1`: no empty cell, hence
`count_solutions` immediately counts it, although it is not legal. -/
def allOnesGrid : Grid := List.replicate 9 (List.replicate 9 1)

/-- A single well-formed row; undersized input for the validator. -/
def oneRowBoard : Grid := [[1, 2, 3, 4, 5, 6, 7, 8, 9]]

/-- A 9 by 9 board with two `5`s in row 0 (columns 0 and 4) and zeros
elsewhere (the legality-boundary example of the spec). -/
def twoFivesBoard : Grid :=
  ([5, 0, 0, 0, 5, 0, 0, 0, 0] : List Int) :: List.replicate 8 (List.replicate 9 0)

/-- The 1 by 1 board `[[1]]`. -/
def oneCellBoard : Grid := [[(1 : Int)]]

/-- The first three rows of `sampleSolved`: an undersized board on which
every probe of the validator stays in bounds. -/
def threeRowBoard : Grid :=
  [[1, 2, 3, 4, 5, 6, 7, 8, 9],
   [4, 5, 6, 7, 8, 9, 1, 2, 3],
   [7, 8, 9, 1, 2, 3, 4, 5, 6]]

/-- `sampleSolved` with cell `(0,0)` changed from `1` to `2` and cell `(1,1)`
set to `0` (the diff example of the spec). -/
def diffCandidate : Grid :=
  [[2, 2, 3, 4, 5, 6, 7, 8, 9],
   [4, 0, 6, 7, 8, 9, 1, 2, 3],
   [7, 8, 9, 1, 2, 3, 4, 5, 6],
   [2, 1, 4, 3, 6, 5, 8, 9, 7],
   [3, 6, 5, 8, 9, 7, 2, 1, 4],
   [8, 9, 7, 2, 1, 4, 3, 6, 5],
   [5, 3, 1, 6, 4, 2, 9, 7, 8],
   [6, 4, 2, 9, 7, 8, 5, 3, 1],
   [9, 7, 8, 5, 3, 1, 6, 4, 2]]

/-! ## Basic lemmas about cells and grid updates -/

theorem mem_digits_iff (v : Int) : v ∈ digits ↔ 1 ≤ v ∧ v ≤ 9 := by
  simp only [digits, List.mem_cons, List.not_mem_nil, or_false]
  omega

theorem digits_nodup : digits.Nodup := by decide

theorem digits_length : digits.length = 9 := rfl

theorem row_length {b : Grid} (hd : Dims9 b) {r : Nat} (hr : r < 9) :
    (b.getD r []).length = 9 := by
  have hrb : r < b.length := by rw [hd.1]; exact hr
  rw [List.getD_eq_getElem _ _ hrb]
  exact hd.2 _ (List.getElem_mem hrb)

theorem getD_set_self {α : Type} (l : List α) (d : α) {n : Nat} (hn : n < l.length)
    (a : α) : (l.set n a).getD n d = a := by
  rw [List.getD_eq_getElem?_getD, List.getElem?_set_self hn, Option.getD_some]

theorem getD_set_ne {α : Type} (l : List α) (d : α) {n m : Nat} (h : n ≠ m) (a : α) :
    (l.set n a).getD m d = l.getD m d := by
  rw [List.getD_eq_getElem?_getD, List.getElem?_set_ne h, ← List.getD_eq_getElem?_getD]

theorem cell_setCell_self {b : Grid} (hd : Dims9 b) {r c : Nat} (hr : r < 9) (hc : c < 9)
    (v : Int) : cell (setCell b r c v) r c = v := by
  have hrb : r < b.length := by rw [hd.1]; exact hr
  have hrow : c < (b.getD r []).length := by rw [row_length hd hr]; exact hc
  unfold cell setCell
  rw [getD_set_self _ _ hrb, getD_set_self _ _ hrow]

theorem cell_setCell_ne {b : Grid} (hd : Dims9 b) {r c : Nat} (hr : r < 9) (hc : c < 9)
    {r2 c2 : Nat} (h : (r2, c2) ≠ (r, c)) (v : Int) :
    cell (setCell b r c v) r2 c2 = cell b r2 c2 := by
  have hrb : r < b.length := by rw [hd.1]; exact hr
  unfold cell setCell
  by_cases hrr : r2 = r
  · subst hrr
    have hcc : c ≠ c2 := by
      intro hh
      exact h (by rw [hh])
    rw [getD_set_self _ _ hrb, getD_set_ne _ _ hcc]
  · rw [getD_set_ne _ _ (fun hh => hrr hh.symm)]

theorem dims9_setCell {b : Grid} (hd : Dims9 b) {r c : Nat} (hr : r < 9) (v : Int) :
    Dims9 (setCell b r c v) := by
  constructor
  · rw [setCell, List.length_set]
    exact hd.1
  · intro row hrow
    rcases List.mem_or_eq_of_mem_set hrow with h | h
    · exact hd.2 _ h
    · rw [h, List.length_set]
      exact row_length hd hr

theorem cellsInRange_setCell {b : Grid} (hd : Dims9 b) (hcr : CellsInRange b)
    {r c : Nat} (hr : r < 9) (hc : c < 9) {v : Int} (h0 : 0 ≤ v) (h9 : v ≤ 9) :
    CellsInRange (setCell b r c v) := by
  intro r2 hr2 c2 hc2
  by_cases hp : (r2, c2) = (r, c)
  · obtain ⟨e1, e2⟩ := Prod.mk.injEq .. |>.mp hp
    subst e1; subst e2
    rw [cell_setCell_self hd hr hc]
    exact ⟨h0, h9⟩
  · rw [cell_setCell_ne hd hr hc hp]
    exact hcr r2 hr2 c2 hc2

theorem set_getD_self {α : Type} : ∀ (l : List α) (d : α) (n : Nat), n < l.length →
    l.set n (l.getD n d) = l := by
  intro l d
  induction l with
  | nil =>
    intro n h
    simp at h
  | cons x xs ih =>
    intro n h
    cases n with
    | zero => rfl
    | succ m =>
      simp only [List.set_cons_succ, List.getD_cons_succ]
      rw [ih m (by simpa using h)]

theorem setCell_restore {b : Grid} (hd : Dims9 b) {r c : Nat} (hr : r < 9) (hc : c < 9)
    (v : Int) : setCell (setCell b r c v) r c (cell b r c) = b := by
  have hrb : r < b.length := by rw [hd.1]; exact hr
  have hcrow : c < (b.getD r []).length := by rw [row_length hd hr]; exact hc
  unfold setCell cell
  rw [getD_set_self _ _ hrb, List.set_set, List.set_set, set_getD_self _ _ _ hcrow,
    set_getD_self _ _ _ hrb]

/-! ## The `numZeros` measure -/

theorem numZeros_le (b : Grid) : numZeros b ≤ 81 := by
  unfold numZeros
  exact le_trans (Finset.card_filter_le _ _) (by simp)

theorem numZeros_pos {b : Grid} {r c : Nat} (hr : r < 9) (hc : c < 9)
    (h0 : cell b r c = 0) : 0 < numZeros b := by
  unfold numZeros
  apply Finset.card_pos.mpr
  refine ⟨9 * r + c, Finset.mem_filter.mpr ⟨Finset.mem_range.mpr (by omega), ?_⟩⟩
  rw [(by omega : (9 * r + c) / 9 = r), (by omega : (9 * r + c) % 9 = c)]
  exact h0

theorem numZeros_setCell {b : Grid} (hd : Dims9 b) {r c : Nat} (hr : r < 9) (hc : c < 9)
    {v : Int} (hv : v ≠ 0) (h0 : cell b r c = 0) :
    numZeros (setCell b r c v) = numZeros b - 1 := by
  unfold numZeros
  have key : ((Finset.range 81).filter fun k => cell (setCell b r c v) (k / 9) (k % 9) = 0)
      = ((Finset.range 81).filter fun k => cell b (k / 9) (k % 9) = 0).erase (9 * r + c) := by
    ext k
    simp only [Finset.mem_filter, Finset.mem_erase, Finset.mem_range]
    constructor
    · rintro ⟨hk, hcell⟩
      have hne : k ≠ 9 * r + c := by
        intro he
        subst he
        rw [(by omega : (9 * r + c) / 9 = r), (by omega : (9 * r + c) % 9 = c),
          cell_setCell_self hd hr hc] at hcell
        exact hv hcell
      have hpne : ((k / 9 : Nat), (k % 9 : Nat)) ≠ (r, c) := by
        simp only [ne_eq, Prod.mk.injEq, not_and]
        intro e1 e2
        exact hne (by omega)
      exact ⟨hne, hk, by rwa [cell_setCell_ne hd hr hc hpne] at hcell⟩
    · rintro ⟨hne, hk, hcell⟩
      refine ⟨hk, ?_⟩
      have hpne : ((k / 9 : Nat), (k % 9 : Nat)) ≠ (r, c) := by
        simp only [ne_eq, Prod.mk.injEq, not_and]
        intro e1 e2
        exact hne (by omega)
      rwa [cell_setCell_ne hd hr hc hpne]
  rw [key, Finset.card_erase_of_mem]
  refine Finset.mem_filter.mpr ⟨Finset.mem_range.mpr (by omega), ?_⟩
  rw [(by omega : (9 * r + c) / 9 = r), (by omega : (9 * r + c) % 9 = c)]
  exact h0

/-! ## `findEmpty` -/

theorem findEmpty_eq_none_iff {b : Grid} :
    findEmpty b = none ↔ ∀ r < 9, ∀ c < 9, cell b r c ≠ 0 := by
  unfold findEmpty
  rw [List.findSome?_eq_none_iff]
  constructor
  · intro h r hr c hc hcell
    have h1 := h r (List.mem_range.mpr hr)
    rw [List.findSome?_eq_none_iff] at h1
    have h2 := h1 c (List.mem_range.mpr hc)
    rw [if_pos hcell] at h2
    exact Option.some_ne_none _ h2
  · intro h r hrmem
    rw [List.findSome?_eq_none_iff]
    intro c hcmem
    exact if_neg (h r (List.mem_range.mp hrmem) c (List.mem_range.mp hcmem))

theorem findEmpty_eq_some {b : Grid} {r c : Nat} (h : findEmpty b = some (r, c)) :
    r < 9 ∧ c < 9 ∧ cell b r c = 0 := by
  unfold findEmpty at h
  obtain ⟨r2, hr2, hinner⟩ := List.exists_of_findSome?_eq_some h
  obtain ⟨c2, hc2, hit⟩ := List.exists_of_findSome?_eq_some hinner
  by_cases h0 : cell b r2 c2 = 0
  · rw [if_pos h0] at hit
    have he : r2 = r ∧ c2 = c := by simpa using hit
    obtain ⟨e1, e2⟩ := he
    subst e1; subst e2
    exact ⟨List.mem_range.mp hr2, List.mem_range.mp hc2, h0⟩
  · rw [if_neg h0] at hit
    exact absurd hit (by simp)

/-! ## Counting values in units via `Finset` cards -/

theorem count_map_range (f : Nat → Int) (n : Nat) (v : Int) :
    ((List.range n).map f).count v = ((Finset.range n).filter fun k => f k = v).card := by
  induction n with
  | zero => simp
  | succ m ih =>
    rw [List.range_succ, List.map_append, List.count_append, ih, Finset.range_succ,
      Finset.filter_insert]
    by_cases hfm : f m = v
    · rw [if_pos hfm, Finset.card_insert_of_not_mem (by simp)]
      simp [hfm]
    · rw [if_neg hfm]
      simp [List.count_singleton, hfm]

theorem two_le_count_map_range {f : Nat → Int} {n k1 k2 : Nat} (h1 : k1 < n) (h2 : k2 < n)
    (hne : k1 ≠ k2) {v : Int} (e1 : f k1 = v) (e2 : f k2 = v) :
    2 ≤ ((List.range n).map f).count v := by
  rw [count_map_range]
  have hsub : ({k1, k2} : Finset Nat) ⊆ (Finset.range n).filter fun k => f k = v := by
    intro x hx
    rcases Finset.mem_insert.mp hx with h | h
    · subst h
      exact Finset.mem_filter.mpr ⟨Finset.mem_range.mpr h1, e1⟩
    · rw [Finset.mem_singleton.mp h]
      exact Finset.mem_filter.mpr ⟨Finset.mem_range.mpr h2, e2⟩
  calc 2 = ({k1, k2} : Finset Nat).card := (Finset.card_pair hne).symm
    _ ≤ _ := Finset.card_le_card hsub

theorem eq_of_count_le_one_map_range {f : Nat → Int} {n : Nat} {v : Int}
    (hcount : ((List.range n).map f).count v ≤ 1) {k1 k2 : Nat} (h1 : k1 < n) (h2 : k2 < n)
    (e1 : f k1 = v) (e2 : f k2 = v) : k1 = k2 := by
  by_contra hne
  have := two_le_count_map_range h1 h2 hne e1 e2
  omega

theorem count_le_one_update {f f2 : Nat → Int} {n k : Nat} (hk : k < n) {v : Int}
    (hsame : ∀ i, i < n → i ≠ k → f2 i = f i) (hfk : f2 k = v)
    (hvnot : ∀ i, i < n → f i ≠ v) {w : Int} (hfkw : f k ≠ w)
    (hold : ((List.range n).map f).count w ≤ 1) :
    ((List.range n).map f2).count w ≤ 1 := by
  rw [count_map_range]
  by_cases hwv : w = v
  · subst hwv
    have hsub : ((Finset.range n).filter fun i => f2 i = w) ⊆ {k} := by
      intro x hx
      obtain ⟨hxr, hxe⟩ := Finset.mem_filter.mp hx
      rw [Finset.mem_singleton]
      by_contra hxk
      rw [hsame x (Finset.mem_range.mp hxr) hxk] at hxe
      exact hvnot x (Finset.mem_range.mp hxr) hxe
    calc ((Finset.range n).filter fun i => f2 i = w).card
        ≤ ({k} : Finset Nat).card := Finset.card_le_card hsub
      _ = 1 := Finset.card_singleton k
  · have heq : ((Finset.range n).filter fun i => f2 i = w)
        = ((Finset.range n).filter fun i => f i = w) := by
      ext x
      simp only [Finset.mem_filter, Finset.mem_range]
      constructor
      · rintro ⟨hx, he⟩
        refine ⟨hx, ?_⟩
        by_cases hxk : x = k
        · subst hxk
          rw [hfk] at he
          exact absurd he.symm hwv
        · rwa [hsame x hx hxk] at he
      · rintro ⟨hx, he⟩
        refine ⟨hx, ?_⟩
        by_cases hxk : x = k
        · subst hxk
          exact absurd he hfkw
        · rwa [hsame x hx hxk]
    rw [heq, ← count_map_range]
    exact hold

theorem count_le_of_pointwise {f g : Nat → Int} {n : Nat} {v : Int} (hv : v ≠ 0)
    (h : ∀ i, i < n → f i ≠ 0 → f i = g i) :
    ((List.range n).map f).count v ≤ ((List.range n).map g).count v := by
  rw [count_map_range, count_map_range]
  apply Finset.card_le_card
  intro x hx
  obtain ⟨hxr, hxe⟩ := Finset.mem_filter.mp hx
  refine Finset.mem_filter.mpr ⟨hxr, ?_⟩
  rw [← h x (Finset.mem_range.mp hxr) (by rw [hxe]; exact hv)]
  exact hxe

/-! ## Units: rows, columns and boxes -/

theorem pair_ne_of_snd {r c i j : Nat} (h : j ≠ c) : (i, j) ≠ (r, c) := by
  simp only [ne_eq, Prod.mk.injEq, not_and]
  intro _
  exact h

theorem pair_ne_of_fst {r c i j : Nat} (h : i ≠ r) : (i, j) ≠ (r, c) := by
  simp only [ne_eq, Prod.mk.injEq, not_and]
  intro hh
  exact absurd hh h

theorem rowCells_eq_physical {b : Grid} (hd : Dims9 b) {r : Nat} (hr : r < 9) :
    rowCells b r = b.getD r [] := by
  apply List.ext_getElem
  · simp only [rowCells, List.length_map, List.length_range]
    exact (row_length hd hr).symm
  · intro n h1 h2
    simp only [rowCells, List.getElem_map, List.getElem_range]
    unfold cell
    exact List.getD_eq_getElem _ _ h2

theorem boxCells_eq_map (b : Grid) (r c : Nat) :
    boxCells b r c =
      (List.range 9).map fun k => cell b (3 * (r / 3) + k / 3) (3 * (c / 3) + k % 3) := by
  simp only [boxCells, List.range_succ, List.range_zero, List.map_nil, List.map_append,
    List.map_cons, List.flatMap_cons, List.flatMap_nil, List.nil_append, List.cons_append,
    List.append_nil]

theorem mem_rowCells_iff {b : Grid} {r : Nat} {v : Int} :
    v ∈ rowCells b r ↔ ∃ c, c < 9 ∧ cell b r c = v := by
  simp [rowCells, List.mem_map, List.mem_range]

theorem mem_colCells_iff {b : Grid} {c : Nat} {v : Int} :
    v ∈ colCells b c ↔ ∃ r, r < 9 ∧ cell b r c = v := by
  simp [colCells, List.mem_map, List.mem_range]

theorem mem_boxCells_iff {b : Grid} {r c : Nat} {v : Int} :
    v ∈ boxCells b r c ↔
      ∃ k, k < 9 ∧ cell b (3 * (r / 3) + k / 3) (3 * (c / 3) + k % 3) = v := by
  rw [boxCells_eq_map]
  simp [List.mem_map, List.mem_range]

theorem cell_mem_rowCells {b : Grid} {r c : Nat} (hc : c < 9) :
    cell b r c ∈ rowCells b r :=
  List.mem_map.mpr ⟨c, List.mem_range.mpr hc, rfl⟩

theorem cell_mem_colCells {b : Grid} {r c : Nat} (hr : r < 9) :
    cell b r c ∈ colCells b c :=
  List.mem_map.mpr ⟨r, List.mem_range.mpr hr, rfl⟩

theorem cell_mem_boxCells {b : Grid} {r c : Nat} (hr : r < 9) (hc : c < 9) :
    cell b r c ∈ boxCells b r c := by
  rw [boxCells_eq_map]
  refine List.mem_map.mpr ⟨3 * (r % 3) + c % 3, List.mem_range.mpr (by omega), ?_⟩
  rw [(by omega : (3 * (r % 3) + c % 3) / 3 = r % 3),
    (by omega : (3 * (r % 3) + c % 3) % 3 = c % 3),
    (by omega : 3 * (r / 3) + r % 3 = r), (by omega : 3 * (c / 3) + c % 3 = c)]

theorem isValidMove_eq_true_iff {b : Grid} (hd : Dims9 b) {r c : Nat} (hr : r < 9)
    (hc : c < 9) {v : Int} :
    isValidMove b r c v = true ↔
      v ∉ rowCells b r ∧ v ∉ colCells b c ∧ v ∉ boxCells b r c := by
  rw [rowCells_eq_physical hd hr]
  unfold isValidMove
  by_cases h1 : v ∈ b.getD r []
  · rw [if_pos h1]
    constructor
    · intro hh
      exact absurd hh (by simp)
    · rintro ⟨ha, _, _⟩
      exact absurd h1 ha
  · rw [if_neg h1]
    by_cases h2 : v ∈ colCells b c
    · rw [if_pos h2]
      constructor
      · intro hh
        exact absurd hh (by simp)
      · rintro ⟨_, ha, _⟩
        exact absurd h2 ha
    · rw [if_neg h2]
      by_cases h3 : v ∈ boxCells b r c
      · rw [if_pos h3]
        constructor
        · intro hh
          exact absurd hh (by simp)
        · rintro ⟨_, _, ha⟩
          exact absurd h3 ha
      · rw [if_neg h3]
        exact ⟨fun _ => ⟨h1, h2, h3⟩, fun _ => rfl⟩

/-! ## Legality lemmas -/

theorem row_unique {b : Grid} (hl : LegalGrid b) {v : Int} (hv : v ∈ digits) {r c1 c2 : Nat}
    (hr : r < 9) (h1 : c1 < 9) (h2 : c2 < 9) (e1 : cell b r c1 = v) (e2 : cell b r c2 = v) :
    c1 = c2 :=
  eq_of_count_le_one_map_range ((hl v hv).1 r hr) h1 h2 e1 e2

theorem col_unique {b : Grid} (hl : LegalGrid b) {v : Int} (hv : v ∈ digits) {c r1 r2 : Nat}
    (hc : c < 9) (h1 : r1 < 9) (h2 : r2 < 9) (e1 : cell b r1 c = v) (e2 : cell b r2 c = v) :
    r1 = r2 :=
  eq_of_count_le_one_map_range ((hl v hv).2.1 c hc) h1 h2 e1 e2

theorem box_unique {b : Grid} (hl : LegalGrid b) {v : Int} (hv : v ∈ digits)
    {r1 c1 r2 c2 : Nat} (hr1 : r1 < 9) (hc1 : c1 < 9) (hr2 : r2 < 9) (hc2 : c2 < 9)
    (hbr : r1 / 3 = r2 / 3) (hbc : c1 / 3 = c2 / 3)
    (e1 : cell b r1 c1 = v) (e2 : cell b r2 c2 = v) : r1 = r2 ∧ c1 = c2 := by
  have hcount : (boxCells b r1 c1).count v ≤ 1 := (hl v hv).2.2 r1 hr1 c1 hc1
  rw [boxCells_eq_map] at hcount
  have h1 : 3 * (r1 / 3) + (3 * (r1 % 3) + c1 % 3) / 3 = r1 := by omega
  have h2 : 3 * (c1 / 3) + (3 * (r1 % 3) + c1 % 3) % 3 = c1 := by omega
  have h3 : 3 * (r1 / 3) + (3 * (r2 % 3) + c2 % 3) / 3 = r2 := by omega
  have h4 : 3 * (c1 / 3) + (3 * (r2 % 3) + c2 % 3) % 3 = c2 := by omega
  have key : 3 * (r1 % 3) + c1 % 3 = 3 * (r2 % 3) + c2 % 3 :=
    eq_of_count_le_one_map_range hcount (by omega) (by omega)
      (by rw [h1, h2]; exact e1) (by rw [h3, h4]; exact e2)
  omega

theorem legalGrid_setCell {b : Grid} (hd : Dims9 b) (hl : LegalGrid b) {r c : Nat}
    (hr : r < 9) (hc : c < 9) (h0 : cell b r c = 0) {v : Int} (hv : v ∈ digits)
    (hmove : isValidMove b r c v = true) : LegalGrid (setCell b r c v) := by
  obtain ⟨hnr, hncol, hnbox⟩ := (isValidMove_eq_true_iff hd hr hc).mp hmove
  intro w hw
  obtain ⟨hw1, hw9⟩ := (mem_digits_iff w).mp hw
  refine ⟨?_, ?_, ?_⟩
  · intro r2 hr2
    show ((List.range 9).map fun c2 => cell (setCell b r c v) r2 c2).count w ≤ 1
    by_cases hrr : r2 = r
    · subst hrr
      apply count_le_one_update (f := fun c2 => cell b r2 c2) (v := v) hc
      · intro i _ hik
        exact cell_setCell_ne hd hr hc (pair_ne_of_snd hik) v
      · exact cell_setCell_self hd hr hc v
      · intro i hi he
        exact hnr (he ▸ cell_mem_rowCells hi)
      · rw [h0]; omega
      · exact (hl w hw).1 r2 hr2
    · have heq : ((List.range 9).map fun c2 => cell (setCell b r c v) r2 c2)
          = (List.range 9).map fun c2 => cell b r2 c2 :=
        List.map_congr_left fun c2 _ =>
          cell_setCell_ne hd hr hc (pair_ne_of_fst hrr) v
      rw [heq]
      exact (hl w hw).1 r2 hr2
  · intro c2 hc2
    show ((List.range 9).map fun r2 => cell (setCell b r c v) r2 c2).count w ≤ 1
    by_cases hcc : c2 = c
    · subst hcc
      apply count_le_one_update (f := fun r2 => cell b r2 c2) (v := v) hr
      · intro i _ hik
        exact cell_setCell_ne hd hr hc (pair_ne_of_fst hik) v
      · exact cell_setCell_self hd hr hc v
      · intro i hi he
        exact hncol (he ▸ cell_mem_colCells hi)
      · rw [h0]; omega
      · exact (hl w hw).2.1 c2 hc2
    · have heq : ((List.range 9).map fun r2 => cell (setCell b r c v) r2 c2)
          = (List.range 9).map fun r2 => cell b r2 c2 :=
        List.map_congr_left fun r2 _ =>
          cell_setCell_ne hd hr hc (pair_ne_of_snd hcc) v
      rw [heq]
      exact (hl w hw).2.1 c2 hc2
  · intro r2 hr2 c2 hc2
    rw [boxCells_eq_map]
    by_cases hbox : r2 / 3 = r / 3 ∧ c2 / 3 = c / 3
    · obtain ⟨hbr, hbc⟩ := hbox
      rw [hbr, hbc]
      apply count_le_one_update (f := fun k => cell b (3 * (r / 3) + k / 3) (3 * (c / 3) + k % 3))
        (k := 3 * (r % 3) + c % 3) (v := v) (by omega)
      · intro i hi hik
        apply cell_setCell_ne hd hr hc
        simp only [ne_eq, Prod.mk.injEq, not_and]
        intro e1 e2
        exact hik (by omega)
      · rw [(by omega : 3 * (r / 3) + (3 * (r % 3) + c % 3) / 3 = r),
          (by omega : 3 * (c / 3) + (3 * (r % 3) + c % 3) % 3 = c)]
        exact cell_setCell_self hd hr hc v
      · intro i hi he
        apply hnbox
        rw [mem_boxCells_iff]
        exact ⟨i, hi, he⟩
      · rw [(by omega : 3 * (r / 3) + (3 * (r % 3) + c % 3) / 3 = r),
          (by omega : 3 * (c / 3) + (3 * (r % 3) + c % 3) % 3 = c), h0]
        omega
      · have hb2 := (hl w hw).2.2 r hr c hc
        rw [boxCells_eq_map] at hb2
        exact hb2
    · have heq : ((List.range 9).map fun k =>
            cell (setCell b r c v) (3 * (r2 / 3) + k / 3) (3 * (c2 / 3) + k % 3))
          = (List.range 9).map fun k => cell b (3 * (r2 / 3) + k / 3) (3 * (c2 / 3) + k % 3) := by
        apply List.map_congr_left
        intro k hk
        have hk9 : k < 9 := List.mem_range.mp hk
        apply cell_setCell_ne hd hr hc
        simp only [ne_eq, Prod.mk.injEq, not_and]
        intro e1 e2
        exact hbox (by omega)
      rw [heq]
      have hb2 := (hl w hw).2.2 r2 hr2 c2 hc2
      rw [boxCells_eq_map] at hb2
      exact hb2

/-- The non-zero cells of `p` agree with `s` (the carving invariant and the
conclusion of the carve-preserves-solution claim). -/
def Agrees (p s : Grid) : Prop :=
  ∀ r < 9, ∀ c < 9, cell p r c ≠ 0 → cell p r c = cell s r c

instance (p s : Grid) : Decidable (Agrees p s) :=
  decidable_of_iff (∀ r < 9, ∀ c < 9, cell p r c ≠ 0 → cell p r c = cell s r c) Iff.rfl

theorem legalGrid_of_agrees {p s : Grid} (hl : LegalGrid s) (ha : Agrees p s) :
    LegalGrid p := by
  intro v hv
  have hv0 : v ≠ 0 := by
    have := (mem_digits_iff v).mp hv
    omega
  refine ⟨?_, ?_, ?_⟩
  · intro r hr
    calc (rowCells p r).count v
        ≤ (rowCells s r).count v :=
          count_le_of_pointwise hv0 fun c hc h0 => ha r hr c hc h0
      _ ≤ 1 := (hl v hv).1 r hr
  · intro c hc
    calc (colCells p c).count v
        ≤ (colCells s c).count v :=
          count_le_of_pointwise hv0 fun r hr h0 => ha r hr c hc h0
      _ ≤ 1 := (hl v hv).2.1 c hc
  · intro r hr c hc
    have hb := (hl v hv).2.2 r hr c hc
    rw [boxCells_eq_map] at hb ⊢
    calc ((List.range 9).map fun k =>
          cell p (3 * (r / 3) + k / 3) (3 * (c / 3) + k % 3)).count v
        ≤ ((List.range 9).map fun k =>
          cell s (3 * (r / 3) + k / 3) (3 * (c / 3) + k % 3)).count v := by
          apply count_le_of_pointwise hv0
          intro k hk h0
          exact ha _ (by omega) _ (by omega) h0
      _ ≤ 1 := hb

/-! ## Completions -/

theorem grid_ext {x b : Grid} (hx : Dims9 x) (hb : Dims9 b)
    (h : ∀ r < 9, ∀ c < 9, cell x r c = cell b r c) : x = b := by
  apply List.ext_getElem (by rw [hx.1, hb.1])
  intro r h1 h2
  apply List.ext_getElem
  · rw [hx.2 _ (List.getElem_mem h1), hb.2 _ (List.getElem_mem h2)]
  · intro c hc1 hc2
    have hr9 : r < 9 := by rw [← hx.1]; exact h1
    have hcx : c < 9 := by rw [← hx.2 _ (List.getElem_mem h1)]; exact hc1
    have hval := h r hr9 c hcx
    have ex : cell x r c = x[r][c] := by
      unfold cell
      rw [List.getD_eq_getElem _ _ h1]
      exact List.getD_eq_getElem _ _ hc1
    have eb : cell b r c = b[r][c] := by
      unfold cell
      rw [List.getD_eq_getElem _ _ h2]
      exact List.getD_eq_getElem _ _ hc2
    rw [← ex, ← eb]
    exact hval

theorem isCompletion_self {b : Grid} (hd : Dims9 b) (hcr : CellsInRange b)
    (hl : LegalGrid b) (hfull : ∀ r < 9, ∀ c < 9, cell b r c ≠ 0) : IsCompletion b b := by
  refine ⟨hd, ?_, hl, fun r _ c _ _ => rfl⟩
  intro r hr c hc
  have h1 := hcr r hr c hc
  have h2 := hfull r hr c hc
  omega

theorem completion_unique_of_full {b x : Grid} (hd : Dims9 b)
    (hfull : ∀ r < 9, ∀ c < 9, cell b r c ≠ 0) (hx : IsCompletion b x) : x = b := by
  apply grid_ext hx.1 hd
  intro r hr c hc
  exact hx.2.2.2 r hr c hc (hfull r hr c hc)

theorem completion_value_at {b : Grid} (hd : Dims9 b) {r c : Nat} (hr : r < 9) (hc : c < 9)
    {v : Int} (hv0 : v ≠ 0) {x : Grid} (hx : IsCompletion (setCell b r c v) x) :
    cell x r c = v := by
  have h := hx.2.2.2 r hr c hc (by rw [cell_setCell_self hd hr hc]; exact hv0)
  rwa [cell_setCell_self hd hr hc] at h

theorem completion_step {b : Grid} (hd : Dims9 b) {r c : Nat}
    (hr : r < 9) (hc : c < 9) (h0 : cell b r c = 0) (x : Grid) :
    IsCompletion b x ↔
      ∃ v ∈ digits, isValidMove b r c v = true ∧ IsCompletion (setCell b r c v) x := by
  constructor
  · intro hx
    obtain ⟨hdx, hrange, hlx, hagree⟩ := hx
    have hvd : cell x r c ∈ digits :=
      (mem_digits_iff _).mpr ⟨(hrange r hr c hc).1, (hrange r hr c hc).2⟩
    have hv0 : cell x r c ≠ 0 := by
      have := (hrange r hr c hc).1
      omega
    refine ⟨cell x r c, hvd, ?_, ?_⟩
    · rw [isValidMove_eq_true_iff hd hr hc]
      refine ⟨?_, ?_, ?_⟩
      · intro hmem
        obtain ⟨c2, hc2, he⟩ := mem_rowCells_iff.mp hmem
        have hb0 : cell b r c2 ≠ 0 := by rw [he]; exact hv0
        have hne : c2 ≠ c := by
          intro hh
          rw [hh] at hb0
          exact hb0 h0
        have hx2 : cell x r c2 = cell x r c := by rw [hagree r hr c2 hc2 hb0]; exact he
        exact hne (row_unique hlx hvd hr hc2 hc hx2 rfl)
      · intro hmem
        obtain ⟨r2, hr2, he⟩ := mem_colCells_iff.mp hmem
        have hb0 : cell b r2 c ≠ 0 := by rw [he]; exact hv0
        have hne : r2 ≠ r := by
          intro hh
          rw [hh] at hb0
          exact hb0 h0
        have hx2 : cell x r2 c = cell x r c := by rw [hagree r2 hr2 c hc hb0]; exact he
        exact hne (col_unique hlx hvd hc hr2 hr hx2 rfl)
      · intro hmem
        obtain ⟨k, hk, he⟩ := mem_boxCells_iff.mp hmem
        have hr2 : 3 * (r / 3) + k / 3 < 9 := by omega
        have hc2 : 3 * (c / 3) + k % 3 < 9 := by omega
        have hb0 : cell b (3 * (r / 3) + k / 3) (3 * (c / 3) + k % 3) ≠ 0 := by
          rw [he]; exact hv0
        have hne : ¬(3 * (r / 3) + k / 3 = r ∧ 3 * (c / 3) + k % 3 = c) := by
          rintro ⟨e1, e2⟩
          rw [e1, e2] at hb0
          exact hb0 h0
        have hx2 : cell x (3 * (r / 3) + k / 3) (3 * (c / 3) + k % 3) = cell x r c := by
          rw [hagree _ hr2 _ hc2 hb0]; exact he
        have := box_unique hlx hvd hr2 hc2 hr hc (by omega) (by omega) hx2 rfl
        exact hne this
    · refine ⟨hdx, hrange, hlx, ?_⟩
      intro r2 hr2 c2 hc2 hnz
      by_cases hp : (r2, c2) = (r, c)
      · obtain ⟨e1, e2⟩ := (Prod.mk.injEq ..).mp hp
        subst e1; subst e2
        rw [cell_setCell_self hd hr hc]
      · rw [cell_setCell_ne hd hr hc hp] at hnz ⊢
        exact hagree r2 hr2 c2 hc2 hnz
  · rintro ⟨v, hvd, _, hdx, hrange, hlx, hagree⟩
    refine ⟨hdx, hrange, hlx, ?_⟩
    intro r2 hr2 c2 hc2 hnz
    have hp : (r2, c2) ≠ (r, c) := by
      intro hh
      obtain ⟨e1, e2⟩ := (Prod.mk.injEq ..).mp hh
      subst e1; subst e2
      exact hnz h0
    have h := hagree r2 hr2 c2 hc2 (by rw [cell_setCell_ne hd hr hc hp]; exact hnz)
    rwa [cell_setCell_ne hd hr hc hp] at h

/-! ## Correctness of the solution counter -/

theorem numZeros_lt_fuel_step {b : Grid} (hd : Dims9 b) {r c : Nat} (hr : r < 9) (hc : c < 9)
    (h0 : cell b r c = 0) {v : Int} (hv : v ≠ 0) {fuel : Nat} (hf : numZeros b < fuel + 1) :
    numZeros (setCell b r c v) < fuel := by
  have h1 := numZeros_setCell hd hr hc hv h0
  have h2 := numZeros_pos hr hc h0
  omega

theorem solutionsF_succ_none {fuel : Nat} {b : Grid} (hfe : findEmpty b = none) :
    solutionsF (fuel + 1) b = [b] := by
  rw [solutionsF, hfe]

theorem solutionsF_succ_some {fuel : Nat} {b : Grid} {r c : Nat}
    (hfe : findEmpty b = some (r, c)) :
    solutionsF (fuel + 1) b = digits.flatMap fun num =>
      if isValidMove b r c num then solutionsF fuel (setCell b r c num) else [] := by
  rw [solutionsF, hfe]

theorem countSolutionsF_succ_none {fuel : Nat} {b : Grid} (hfe : findEmpty b = none) :
    countSolutionsF (fuel + 1) b = 1 := by
  rw [countSolutionsF, hfe]

theorem countSolutionsF_succ_some {fuel : Nat} {b : Grid} {r c : Nat}
    (hfe : findEmpty b = some (r, c)) :
    countSolutionsF (fuel + 1) b = (digits.map fun num =>
      if isValidMove b r c num then countSolutionsF fuel (setCell b r c num) else 0).sum := by
  rw [countSolutionsF, hfe]

theorem solutionsF_spec : ∀ (fuel : Nat) (b : Grid), numZeros b < fuel → Dims9 b →
    CellsInRange b → LegalGrid b →
    (∀ x, x ∈ solutionsF fuel b ↔ IsCompletion b x) ∧ (solutionsF fuel b).Nodup := by
  intro fuel
  induction fuel with
  | zero =>
    intro b hf
    exact absurd hf (Nat.not_lt_zero _)
  | succ fuel ih =>
    intro b hf hd hcr hl
    cases hfe : findEmpty b with
    | none =>
      rw [solutionsF_succ_none hfe]
      constructor
      · intro x
        simp only [List.mem_singleton]
        constructor
        · rintro rfl
          exact isCompletion_self hd hcr hl (findEmpty_eq_none_iff.mp hfe)
        · intro hx
          exact completion_unique_of_full hd (findEmpty_eq_none_iff.mp hfe) hx
      · exact List.nodup_singleton b
    | some rc =>
      obtain ⟨r, c⟩ := rc
      obtain ⟨hr, hc, h0⟩ := findEmpty_eq_some hfe
      rw [solutionsF_succ_some hfe]
      have hstep : ∀ v ∈ digits, isValidMove b r c v = true →
          (∀ x, x ∈ solutionsF fuel (setCell b r c v) ↔ IsCompletion (setCell b r c v) x) ∧
            (solutionsF fuel (setCell b r c v)).Nodup := by
        intro v hvd hmv
        have h19 := (mem_digits_iff v).mp hvd
        have hv0 : v ≠ 0 := by omega
        exact ih (setCell b r c v) (numZeros_lt_fuel_step hd hr hc h0 hv0 hf)
          (dims9_setCell hd hr v) (cellsInRange_setCell hd hcr hr hc (by omega) h19.2)
          (legalGrid_setCell hd hl hr hc h0 hvd hmv)
      constructor
      · intro x
        rw [List.mem_flatMap, completion_step hd hr hc h0 x]
        constructor
        · rintro ⟨v, hvd, hx⟩
          by_cases hmv : isValidMove b r c v = true
          · rw [if_pos hmv] at hx
            exact ⟨v, hvd, hmv, ((hstep v hvd hmv).1 x).mp hx⟩
          · rw [if_neg hmv] at hx
            exact absurd hx (List.not_mem_nil x)
        · rintro ⟨v, hvd, hmv, hx⟩
          exact ⟨v, hvd, by rw [if_pos hmv]; exact ((hstep v hvd hmv).1 x).mpr hx⟩
      · rw [List.nodup_flatMap]
        constructor
        · intro v hvd
          by_cases hmv : isValidMove b r c v = true
          · rw [if_pos hmv]
            exact (hstep v hvd hmv).2
          · rw [if_neg hmv]
            exact List.nodup_nil
        · have hpw : digits.Pairwise (· ≠ ·) := digits_nodup
          apply hpw.imp_of_mem
          intro v1 v2 h1 h2 hne x hx1 hx2
          simp only [] at hx1 hx2
          by_cases hm1 : isValidMove b r c v1 = true
          · rw [if_pos hm1] at hx1
            by_cases hm2 : isValidMove b r c v2 = true
            · rw [if_pos hm2] at hx2
              have c1 := ((hstep v1 h1 hm1).1 x).mp hx1
              have c2 := ((hstep v2 h2 hm2).1 x).mp hx2
              have hv10 : v1 ≠ 0 := by
                have := (mem_digits_iff v1).mp h1
                omega
              have hv20 : v2 ≠ 0 := by
                have := (mem_digits_iff v2).mp h2
                omega
              have e1 := completion_value_at hd hr hc hv10 c1
              have e2 := completion_value_at hd hr hc hv20 c2
              exact hne (by rw [← e1, ← e2])
            · rw [if_neg hm2] at hx2
              exact List.not_mem_nil x hx2
          · rw [if_neg hm1] at hx1
            exact List.not_mem_nil x hx1

theorem countSolutionsF_eq_length : ∀ (fuel : Nat) (b : Grid),
    countSolutionsF fuel b = (solutionsF fuel b).length := by
  intro fuel
  induction fuel with
  | zero =>
    intro b
    rfl
  | succ fuel ih =>
    intro b
    cases hfe : findEmpty b with
    | none => rw [countSolutionsF_succ_none hfe, solutionsF_succ_none hfe, List.length_singleton]
    | some rc =>
      obtain ⟨r, c⟩ := rc
      rw [countSolutionsF_succ_some hfe, solutionsF_succ_some hfe, List.length_flatMap]
      congr 1
      apply List.map_congr_left
      intro v _
      simp only [Function.comp]
      by_cases hmv : isValidMove b r c v = true
      · rw [if_pos hmv, if_pos hmv]
        exact ih (setCell b r c v)
      · rw [if_neg hmv, if_neg hmv]
        rfl

theorem nodup_singleton_of_all_eq {l : List Grid} (hnd : l.Nodup) {x : Grid} (hx : x ∈ l)
    (hall : ∀ y ∈ l, y = x) : l = [x] := by
  cases l with
  | nil => cases hx
  | cons a t =>
    have ha : a = x := hall a (List.mem_cons_self a t)
    subst ha
    cases t with
    | nil => rfl
    | cons z t2 =>
      have hz : z = a := hall z (by simp)
      subst hz
      exact absurd (List.mem_cons_self z t2) (List.nodup_cons.mp hnd).1

/-- For a 9 by 9, in-range, legal board, `has_unique_solution` decides exactly
the existence of a unique legal completion. -/
theorem hasUniqueSolution_eq_true_iff {b : Grid} (hd : Dims9 b) (hcr : CellsInRange b)
    (hl : LegalGrid b) : hasUniqueSolution b = true ↔ ∃! x, IsCompletion b x := by
  have hfuel : numZeros b < 82 := by
    have := numZeros_le b
    omega
  obtain ⟨hmem, hnd⟩ := solutionsF_spec 82 b hfuel hd hcr hl
  unfold hasUniqueSolution countSolutions
  rw [beq_iff_eq, countSolutionsF_eq_length]
  constructor
  · intro hlen
    obtain ⟨a, ha⟩ := List.length_eq_one.mp hlen
    refine ⟨a, (hmem a).mp (by rw [ha]; exact List.mem_singleton_self a), ?_⟩
    intro y hy
    have hy2 : y ∈ solutionsF 82 b := (hmem y).mpr hy
    rw [ha] at hy2
    exact List.mem_singleton.mp hy2
  · rintro ⟨x, hx, huniq⟩
    have hxmem : x ∈ solutionsF 82 b := (hmem x).mpr hx
    have heq : solutionsF 82 b = [x] :=
      nodup_singleton_of_all_eq hnd hxmem fun y hy => huniq y ((hmem y).mp hy)
    rw [heq]
    rfl

/-! ## Correctness of the carver -/

theorem agrees_refl (s : Grid) : Agrees s s := fun _ _ _ _ _ => rfl

theorem isCompletion_of_agrees {p s : Grid} (hs : SolvedGrid s) (ha : Agrees p s) :
    IsCompletion p s := by
  obtain ⟨hd, hcr, hl, hfull⟩ := hs
  refine ⟨hd, ?_, hl, ?_⟩
  · intro r hr c hc
    have h1 := hcr r hr c hc
    have h2 := hfull r hr c hc
    omega
  · intro r hr c hc h0
    exact (ha r hr c hc h0).symm

theorem cellsInRange_of_agrees {p s : Grid} (hcr : CellsInRange s) (ha : Agrees p s) :
    CellsInRange p := by
  intro r hr c hc
  by_cases h0 : cell p r c = 0
  · rw [h0]
    constructor <;> omega
  · rw [ha r hr c hc h0]
    exact hcr r hr c hc

theorem agrees_setCell_zero {p s : Grid} (hd : Dims9 p) {r c : Nat} (hr : r < 9) (hc : c < 9)
    (ha : Agrees p s) : Agrees (setCell p r c 0) s := by
  intro r2 hr2 c2 hc2 h0
  by_cases hp : (r2, c2) = (r, c)
  · obtain ⟨e1, e2⟩ := (Prod.mk.injEq ..).mp hp
    subst e1; subst e2
    rw [cell_setCell_self hd hr hc] at h0
    exact absurd rfl h0
  · rw [cell_setCell_ne hd hr hc hp] at h0 ⊢
    exact ha r2 hr2 c2 hc2 h0

theorem createPuzzleGo_spec {s : Grid} (hs : SolvedGrid s) (t : Nat) :
    ∀ (cells : List (Nat × Nat)), (∀ q ∈ cells, q.1 < 9 ∧ q.2 < 9) →
    ∀ (p : Grid) (k : Nat), Dims9 p → Agrees p s →
      (∀ x, IsCompletion p x → x = s) →
      Dims9 (createPuzzleGo t cells p k) ∧ Agrees (createPuzzleGo t cells p k) s ∧
        (∀ x, IsCompletion (createPuzzleGo t cells p k) x → x = s) := by
  intro cells
  induction cells with
  | nil =>
    intro _ p k hd ha hu
    exact ⟨hd, ha, hu⟩
  | cons q rest ih =>
    obtain ⟨r, c⟩ := q
    intro hqs p k hd ha hu
    have hq := hqs (r, c) (List.mem_cons_self _ _)
    have hr : r < 9 := hq.1
    have hc : c < 9 := hq.2
    have hrest : ∀ q ∈ rest, q.1 < 9 ∧ q.2 < 9 := fun q hq2 =>
      hqs q (List.mem_cons_of_mem _ hq2)
    rw [createPuzzleGo]
    by_cases hbreak : t ≤ k
    · rw [if_pos hbreak]
      exact ⟨hd, ha, hu⟩
    · rw [if_neg hbreak]
      have hd2 : Dims9 (setCell p r c 0) := dims9_setCell hd hr 0
      have ha2 : Agrees (setCell p r c 0) s := agrees_setCell_zero hd hr hc ha
      by_cases huniq : hasUniqueSolution (setCell p r c 0) = true
      · rw [if_pos huniq]
        apply ih hrest _ _ hd2 ha2
        have hl2 : LegalGrid (setCell p r c 0) := legalGrid_of_agrees hs.2.2.1 ha2
        have hcr2 : CellsInRange (setCell p r c 0) := cellsInRange_of_agrees hs.2.1 ha2
        obtain ⟨y, _, hyuniq⟩ := (hasUniqueSolution_eq_true_iff hd2 hcr2 hl2).mp huniq
        intro x hx
        have hxy : x = y := hyuniq x hx
        have hsy : s = y := hyuniq s (isCompletion_of_agrees hs ha2)
        rw [hxy, ← hsy]
      · rw [if_neg huniq, setCell_restore hd hr hc 0]
        exact ih hrest p k hd ha hu

/-- C1: for every solved 9 by 9 grid `s`, every target empty-cell count `t`
and every shuffled coordinate list (any list of in-range coordinates, which
covers every outcome of `random.shuffle`), the puzzle returned by
`create_puzzle(s, t)` agrees with `s` on every non-zero cell and has exactly
one legal completion, namely `s` itself. -/
theorem create_puzzle_spec (s : Grid) (t : Nat) (cells : List (Nat × Nat))
    (hs : SolvedGrid s) (hcells : ∀ q ∈ cells, q.1 < 9 ∧ q.2 < 9) :
    (∀ r < 9, ∀ c < 9, cell (createPuzzle s t cells) r c ≠ 0 →
      cell (createPuzzle s t cells) r c = cell s r c) ∧
    IsCompletion (createPuzzle s t cells) s ∧
    (∀ x, IsCompletion (createPuzzle s t cells) x → x = s) := by
  have base_u : ∀ x, IsCompletion s x → x = s := fun x hx =>
    completion_unique_of_full hs.1 hs.2.2.2 hx
  obtain ⟨hd, ha, hu⟩ :=
    createPuzzleGo_spec hs t cells hcells s 0 hs.1 (agrees_refl s) base_u
  exact ⟨ha, isCompletion_of_agrees hs ha, hu⟩

/-- Witness for C1 at the concrete solved grid `sampleSolved`, target `40`
and the singleton coordinate list `[(0, 0)]`. -/
theorem create_puzzle_spec_witness :
    (SolvedGrid sampleSolved ∧ (∀ q ∈ ([(0, 0)] : List (Nat × Nat)), q.1 < 9 ∧ q.2 < 9)) ∧
    ((∀ r < 9, ∀ c < 9, cell (createPuzzle sampleSolved 40 [(0, 0)]) r c ≠ 0 →
        cell (createPuzzle sampleSolved 40 [(0, 0)]) r c = cell sampleSolved r c) ∧
      IsCompletion (createPuzzle sampleSolved 40 [(0, 0)]) sampleSolved ∧
      (∀ x, IsCompletion (createPuzzle sampleSolved 40 [(0, 0)]) x → x = sampleSolved)) :=
  ⟨⟨by decide, by decide⟩,
    create_puzzle_spec sampleSolved 40 [(0, 0)] (by decide) (by decide)⟩

/-- C2 (amended): for every 9 by 9 grid `g` with cell values in `[0, 9]` that
is itself legal, `has_unique_solution(g)` returns `true` if and only if `g`
has exactly one legal completion.  (`g` itself is never mutated: the Python
function runs on a row-by-row copy, which the pure embedding reflects.) -/
theorem has_unique_solution_iff_unique_completion (g : Grid) (hd : Dims9 g)
    (hcr : CellsInRange g) (hl : LegalGrid g) :
    hasUniqueSolution g = true ↔ ∃! x, IsCompletion g x :=
  hasUniqueSolution_eq_true_iff hd hcr hl

/-- Witness for C2 at the concrete grid `sampleSolved`. -/
theorem has_unique_solution_iff_unique_completion_witness :
    (Dims9 sampleSolved ∧ CellsInRange sampleSolved ∧ LegalGrid sampleSolved) ∧
    (hasUniqueSolution sampleSolved = true ↔ ∃! x, IsCompletion sampleSolved x) :=
  ⟨⟨by decide, by decide, by decide⟩,
    has_unique_solution_iff_unique_completion sampleSolved (by decide) (by decide) (by decide)⟩

/-- Counterexample to C2 as stated: the all-ones grid is a 9 by 9 grid with
cell values in `[0, 9]` on which `has_unique_solution` returns `true`, yet it
has no legal completion at all (its first row holds the digit `1` twice, and
a completion would have to preserve both occurrences). -/
theorem has_unique_solution_true_on_full_illegal_grid :
    Dims9 allOnesGrid ∧ CellsInRange allOnesGrid ∧
    hasUniqueSolution allOnesGrid = true ∧ ¬∃ x, IsCompletion allOnesGrid x := by
  refine ⟨by decide, by decide, by decide, ?_⟩
  rintro ⟨x, _, _, hlx, hagree⟩
  have e1 : cell x 0 0 = 1 :=
    (hagree 0 (by omega) 0 (by omega) (by decide)).trans (by decide)
  have e2 : cell x 0 1 = 1 :=
    (hagree 0 (by omega) 1 (by omega) (by decide)).trans (by decide)
  have h2 : 2 ≤ (rowCells x 0).count 1 :=
    two_le_count_map_range (by omega) (by omega) (by omega) e1 e2
  have h1 : (rowCells x 0).count 1 ≤ 1 := (hlx 1 (by decide)).1 0 (by omega)
  omega

/-- C4 (code evaluation): on the concrete board `fourSolGrid`, which has four
legal completions, `count_solutions` fully enumerates and its counter reaches
`4`, exceeding `2` — the code never terminates the search early. -/
theorem count_solutions_counter_exceeds_two :
    countSolutions fourSolGrid = 4 ∧ 2 < countSolutions fourSolGrid := by
  have h : countSolutions fourSolGrid = 4 := by decide
  exact ⟨h, by omega⟩

/-! ## Difficulty table and constructor -/

/-- C8: the target empty-cell count handed to the carver is
`int(81 * fraction)` = `floor(81 * fraction)`: 8, 24, 40, 48, 56 and 72 for
the six recognized difficulty levels.  (The Python computation is on floats;
at all six entries the float product floors to the same value as the exact
rational product, which is what the embedding uses.) -/
theorem difficulty_target_counts :
    maxEmptyCellsFor "very easy" = 8 ∧ maxEmptyCellsFor "easy" = 24 ∧
    maxEmptyCellsFor "medium" = 40 ∧ maxEmptyCellsFor "hard" = 48 ∧
    maxEmptyCellsFor "very hard" = 56 ∧ maxEmptyCellsFor "extreme" = 72 := by
  refine ⟨?_, ?_, ?_, ?_, ?_, ?_⟩
  · have h : difficulty_levels.lookup "very easy" = some (1/10 : ℚ) := rfl
    unfold maxEmptyCellsFor
    rw [h]
    norm_num
    rfl
  · have h : difficulty_levels.lookup "easy" = some (3/10 : ℚ) := rfl
    unfold maxEmptyCellsFor
    rw [h]
    norm_num
    rfl
  · have h : difficulty_levels.lookup "medium" = some (1/2 : ℚ) := rfl
    unfold maxEmptyCellsFor
    rw [h]
    norm_num
    rfl
  · have h : difficulty_levels.lookup "hard" = some (3/5 : ℚ) := rfl
    unfold maxEmptyCellsFor
    rw [h]
    norm_num
    rfl
  · have h : difficulty_levels.lookup "very hard" = some (7/10 : ℚ) := rfl
    unfold maxEmptyCellsFor
    rw [h]
    norm_num
    rfl
  · have h : difficulty_levels.lookup "extreme" = some (9/10 : ℚ) := rfl
    unfold maxEmptyCellsFor
    rw [h]
    norm_num
    rfl

/-- C9: constructing `SudokuGenerator(difficulty)` raises exactly when the
difficulty string is not one of the six recognized identifiers, and succeeds
otherwise; the check happens in `__init__`, before any puzzle-generation
work. -/
theorem generator_init_error_iff (d : String) :
    (sudokuGeneratorInit d = Except.ok d ↔
      d ∈ ["very easy", "easy", "medium", "hard", "very hard", "extreme"]) ∧
    ((∃ msg, sudokuGeneratorInit d = Except.error msg) ↔
      d ∉ ["very easy", "easy", "medium", "hard", "very hard", "extreme"]) := by
  have hkey : (difficulty_levels.lookup d).isSome = true ↔
      d ∈ ["very easy", "easy", "medium", "hard", "very hard", "extreme"] := by
    by_cases h1 : d = "very easy"
    · subst h1; decide
    by_cases h2 : d = "easy"
    · subst h2; decide
    by_cases h3 : d = "medium"
    · subst h3; decide
    by_cases h4 : d = "hard"
    · subst h4; decide
    by_cases h5 : d = "very hard"
    · subst h5; decide
    by_cases h6 : d = "extreme"
    · subst h6; decide
    have e1 : (d == "very easy") = false := beq_eq_false_iff_ne.mpr h1
    have e2 : (d == "easy") = false := beq_eq_false_iff_ne.mpr h2
    have e3 : (d == "medium") = false := beq_eq_false_iff_ne.mpr h3
    have e4 : (d == "hard") = false := beq_eq_false_iff_ne.mpr h4
    have e5 : (d == "very hard") = false := beq_eq_false_iff_ne.mpr h5
    have e6 : (d == "extreme") = false := beq_eq_false_iff_ne.mpr h6
    simp [difficulty_levels, List.lookup, e1, e2, e3, e4, e5, e6, h1, h2, h3, h4, h5, h6]
  constructor
  · rw [← hkey]
    unfold sudokuGeneratorInit
    constructor
    · intro hok
      by_cases hs : (difficulty_levels.lookup d).isSome = true
      · exact hs
      · rw [if_neg (by simpa using hs)] at hok
        exact absurd hok (by simp)
    · intro hs
      rw [if_pos hs]
  · rw [← hkey]
    unfold sudokuGeneratorInit
    constructor
    · rintro ⟨msg, herr⟩ hs
      rw [if_pos hs] at herr
      exact absurd herr (by simp)
    · intro hs
      rw [if_neg (by simpa using hs)]
      exact ⟨_, rfl⟩

/-! ## The validator: totality and specification -/

theorem mapM_option_eq_some {α β : Type} (f : α → Option β) (g : α → β) :
    ∀ (l : List α), (∀ a ∈ l, f a = some (g a)) → l.mapM f = some (l.map g) := by
  intro l
  induction l with
  | nil =>
    intro _
    rfl
  | cons a t ih =>
    intro h
    rw [List.mapM_cons, h a (List.mem_cons_self _ _),
      ih fun x hx => h x (List.mem_cons_of_mem _ hx)]
    rfl

theorem getColumn_eq_some {b : Grid} {c : Nat} (h : ∀ row ∈ b, c < row.length) :
    getColumn b c = some (b.map fun row => row.getD c 0) := by
  apply mapM_option_eq_some
  intro row hrow
  rw [List.getElem?_eq_getElem (h row hrow)]
  congr 1
  exact (List.getD_eq_getElem _ _ (h row hrow)).symm

theorem map_getD_eq_colCells {b : Grid} (hd : Dims9 b) (c : Nat) :
    (b.map fun row => row.getD c 0) = colCells b c := by
  apply List.ext_getElem
  · simp [colCells, hd.1]
  · intro n h1 h2
    have hbn : n < b.length := by simpa using h1
    simp only [List.getElem_map, colCells, List.getElem_range]
    unfold cell
    rw [List.getD_eq_getElem b [] hbn]

theorem getColumn_eq_colCells {b : Grid} (hd : Dims9 b) {c : Nat} (hc : c < 9) :
    getColumn b c = some (colCells b c) := by
  rw [getColumn_eq_some fun row hrow => by rw [hd.2 row hrow]; exact hc,
    map_getD_eq_colCells hd]

theorem getSubgrid_eq_some {b : Grid} {r c : Nat} (hr : r < 9) (hc : c < 9)
    (hlen : 9 ≤ b.length) (hrows : ∀ row ∈ b, 9 ≤ row.length) :
    getSubgrid b r c = some (boxCells b r c) := by
  unfold getSubgrid
  rw [mapM_option_eq_some _ (fun p => cell b p.1 p.2) _ ?_]
  · rw [List.map_flatMap]
    unfold boxCells
    congr 1
  · intro p hp
    simp only [List.mem_flatMap, List.mem_map, List.mem_range] at hp
    obtain ⟨i, hi, j, hj, rfl⟩ := hp
    have h1 : 3 * (r / 3) + i < b.length := by omega
    have h2 : 3 * (c / 3) + j < b[3 * (r / 3) + i].length := by
      have := hrows _ (List.getElem_mem h1)
      omega
    have hcv : cell b (3 * (r / 3) + i) (3 * (c / 3) + j)
        = b[3 * (r / 3) + i][3 * (c / 3) + j] := by
      unfold cell
      rw [List.getD_eq_getElem b [] h1]
      exact List.getD_eq_getElem _ _ h2
    rw [List.getElem?_eq_getElem h1]
    show b[3 * (r / 3) + i][3 * (c / 3) + j]? = _
    rw [List.getElem?_eq_getElem h2]
    exact congrArg some hcv.symm

theorem checkCells_isSome {b : Grid} {ae : Bool} {r : Nat} (hr : r ≤ 8)
    (hlen : 9 ≤ b.length) (hrows : ∀ row ∈ b, 9 ≤ row.length) (row : List Int) :
    ∀ (rest : List Int) (j : Nat), (checkCells b ae r row j rest).isSome = true := by
  intro rest
  induction rest with
  | nil =>
    intro j
    rw [checkCells]
    rfl
  | cons number tail ih =>
    intro j
    rw [checkCells]
    by_cases h8 : j > 8
    · rw [if_pos h8]
      rfl
    · rw [if_neg h8]
      by_cases hrange : number < (if ae then (0 : Int) else 1) ∨ number > 9
      · rw [if_pos hrange]
        rfl
      · rw [if_neg hrange]
        by_cases h0 : number = 0
        · rw [if_pos h0]
          exact ih (j + 1)
        · rw [if_neg h0]
          by_cases hcnt : row.count number > 1
          · rw [if_pos hcnt]
            rfl
          · rw [if_neg hcnt]
            have hcolsome : getColumn b j = some (b.map fun row2 => row2.getD j 0) :=
              getColumn_eq_some fun row2 hrow2 => by
                have := hrows row2 hrow2
                omega
            cases hcol : getColumn b j with
            | none =>
              rw [hcol] at hcolsome
              exact absurd hcolsome (by simp)
            | some col =>
              show ((if col.count number > 1 then some false
                else
                  match getSubgrid b r j with
                  | none => none
                  | some sub =>
                    if sub.count number > 1 then some false
                    else checkCells b ae r row (j + 1) tail : Option Bool)).isSome = true
              by_cases hc2 : col.count number > 1
              · rw [if_pos hc2]
                rfl
              · rw [if_neg hc2]
                have hsubsome : getSubgrid b r j = some (boxCells b r j) :=
                  getSubgrid_eq_some (by omega) (by omega) hlen hrows
                cases hsub : getSubgrid b r j with
                | none =>
                  rw [hsub] at hsubsome
                  exact absurd hsubsome (by simp)
                | some sub =>
                  show ((if sub.count number > 1 then some false
                    else checkCells b ae r row (j + 1) tail : Option Bool)).isSome = true
                  by_cases hc3 : sub.count number > 1
                  · rw [if_pos hc3]
                    rfl
                  · rw [if_neg hc3]
                    exact ih (j + 1)

theorem checkRows_isSome {b : Grid} {ae : Bool} (hlen : 9 ≤ b.length)
    (hrows : ∀ row ∈ b, 9 ≤ row.length) :
    ∀ (rest : List (List Int)) (i : Nat), (checkRows b ae i rest).isSome = true := by
  intro rest
  induction rest with
  | nil =>
    intro i
    rw [checkRows]
    rfl
  | cons row tail ih =>
    intro i
    rw [checkRows]
    by_cases h8 : i > 8
    · rw [if_pos h8]
      rfl
    · rw [if_neg h8]
      obtain ⟨bb, hbb⟩ :=
        Option.isSome_iff_exists.mp (checkCells_isSome (r := i) (by omega) hlen hrows row row 0)
      rw [hbb]
      cases bb with
      | true => exact ih (i + 1)
      | false => rfl

theorem checkCells_some_true_bound {b : Grid} {ae : Bool} {r : Nat} {row : List Int} :
    ∀ (rest : List Int) (j : Nat), checkCells b ae r row j rest = some true →
      rest ≠ [] → j + rest.length ≤ 9 := by
  intro rest
  induction rest with
  | nil =>
    intro j _ hne
    exact absurd rfl hne
  | cons number tail ih =>
    intro j h _
    rw [checkCells] at h
    by_cases h8 : j > 8
    · rw [if_pos h8] at h
      exact absurd h (by simp)
    · rw [if_neg h8] at h
      have step : checkCells b ae r row (j + 1) tail = some true → j + (number :: tail).length ≤ 9 := by
        intro hrec
        by_cases htail : tail = []
        · subst htail
          simp only [List.length_cons, List.length_nil]
          omega
        · have := ih (j + 1) hrec htail
          simp only [List.length_cons]
          omega
      by_cases hrange : number < (if ae then (0 : Int) else 1) ∨ number > 9
      · rw [if_pos hrange] at h
        exact absurd h (by simp)
      · rw [if_neg hrange] at h
        by_cases h0 : number = 0
        · rw [if_pos h0] at h
          exact step h
        · rw [if_neg h0] at h
          by_cases hcnt : row.count number > 1
          · rw [if_pos hcnt] at h
            exact absurd h (by simp)
          · rw [if_neg hcnt] at h
            cases hcol : getColumn b j with
            | none =>
              rw [hcol] at h
              exact absurd h (by simp)
            | some col =>
              rw [hcol] at h
              replace h : (if col.count number > 1 then some false
                  else
                    match getSubgrid b r j with
                    | none => none
                    | some sub =>
                      if sub.count number > 1 then some false
                      else checkCells b ae r row (j + 1) tail : Option Bool) = some true := h
              by_cases hc2 : col.count number > 1
              · rw [if_pos hc2] at h
                exact absurd h (by simp)
              · rw [if_neg hc2] at h
                cases hsub : getSubgrid b r j with
                | none =>
                  rw [hsub] at h
                  exact absurd h (by simp)
                | some sub =>
                  rw [hsub] at h
                  replace h : (if sub.count number > 1 then some false
                      else checkCells b ae r row (j + 1) tail : Option Bool) = some true := h
                  by_cases hc3 : sub.count number > 1
                  · rw [if_pos hc3] at h
                    exact absurd h (by simp)
                  · rw [if_neg hc3] at h
                    exact step h

theorem checkRows_some_true_destruct {b : Grid} {ae : Bool} {i : Nat} {row : List Int}
    {tail : List (List Int)} (h : checkRows b ae i (row :: tail) = some true) :
    i ≤ 8 ∧ checkCells b ae i row 0 row = some true ∧
      checkRows b ae (i + 1) tail = some true := by
  rw [checkRows] at h
  by_cases h8 : i > 8
  · rw [if_pos h8] at h
    exact absurd h (by simp)
  · rw [if_neg h8] at h
    cases hcc : checkCells b ae i row 0 row with
    | none =>
      rw [hcc] at h
      exact absurd h (by simp)
    | some bb =>
      rw [hcc] at h
      cases bb with
      | false => exact absurd h (by simp)
      | true => exact ⟨by omega, rfl, h⟩

theorem checkRows_some_true_bound {b : Grid} {ae : Bool} :
    ∀ (rest : List (List Int)) (i : Nat), checkRows b ae i rest = some true →
      rest ≠ [] → i + rest.length ≤ 9 := by
  intro rest
  induction rest with
  | nil =>
    intro i _ hne
    exact absurd rfl hne
  | cons row tail ih =>
    intro i h _
    obtain ⟨h8, _, hrec⟩ := checkRows_some_true_destruct h
    by_cases htail : tail = []
    · subst htail
      simp only [List.length_cons, List.length_nil]
      omega
    · have := ih (i + 1) hrec htail
      simp only [List.length_cons]
      omega

theorem checkRows_some_true_rowlen {b : Grid} {ae : Bool} :
    ∀ (rest : List (List Int)) (i : Nat), checkRows b ae i rest = some true →
      ∀ row ∈ rest, row.length ≤ 9 := by
  intro rest
  induction rest with
  | nil =>
    intro i _ row hrow
    exact absurd hrow (List.not_mem_nil row)
  | cons row tail ih =>
    intro i h row2 hrow2
    obtain ⟨_, hcc, hrec⟩ := checkRows_some_true_destruct h
    rcases List.mem_cons.mp hrow2 with he | hmem
    · subst he
      by_cases hne : row2 = []
      · rw [hne]
        simp
      · have := checkCells_some_true_bound row2 0 hcc hne
        omega
    · exact ih (i + 1) hrec row2 hmem

instance (b : Grid) (ae : Bool) (r j : Nat) :
    Decidable (∀ c, c < 9 → j ≤ c → CellOk b ae r c) := inferInstance

instance (b : Grid) (ae : Bool) (i : Nat) :
    Decidable (∀ r, r < 9 → i ≤ r → ∀ c, c < 9 → CellOk b ae r c) := inferInstance

theorem checkCells_eq_decide {b : Grid} (hd : Dims9 b) {ae : Bool} {r : Nat} (hr : r < 9) :
    ∀ (m j : Nat), m = 9 - j → j ≤ 9 →
      checkCells b ae r (b.getD r []) j ((b.getD r []).drop j)
        = some (decide (∀ c, c < 9 → j ≤ c → CellOk b ae r c)) := by
  intro m
  induction m with
  | zero =>
    intro j hm hj
    have hj9 : j = 9 := by omega
    subst hj9
    rw [List.drop_eq_nil_of_le (by rw [row_length hd hr]), checkCells]
    have hP : ∀ c, c < 9 → 9 ≤ c → CellOk b ae r c := fun c hc h9 => absurd hc (by omega)
    rw [decide_eq_true hP]
  | succ m ih =>
    intro j hm hj
    have hj9 : j < 9 := by omega
    have hjrow : j < (b.getD r []).length := by
      rw [row_length hd hr]
      exact hj9
    rw [List.drop_eq_getElem_cons hjrow, checkCells, if_neg (by omega : ¬j > 8),
      ← List.getD_eq_getElem _ _ hjrow]
    have hrec := ih (j + 1) (by omega) (by omega)
    have hrowcount : (b.getD r []).count (cell b r j)
        = (rowCells b r).count (cell b r j) := by
      rw [rowCells_eq_physical hd hr]
    have hcellj : (b.getD r []).getD j 0 = cell b r j := rfl
    by_cases hrange : cell b r j < (if ae then (0 : Int) else 1) ∨ cell b r j > 9
    · rw [if_pos (by rw [hcellj]; exact hrange)]
      have hP : ¬∀ c, c < 9 → j ≤ c → CellOk b ae r c := by
        intro hP
        obtain ⟨⟨hlo, hhi⟩, _⟩ := hP j hj9 (le_refl j)
        rcases hrange with hlt | hgt
        · omega
        · omega
      rw [decide_eq_false hP]
    · rw [if_neg (by rw [hcellj]; exact hrange)]
      have hok1 : (if ae then (0 : Int) else 1) ≤ cell b r j ∧ cell b r j ≤ 9 := by
        push_neg at hrange
        exact ⟨hrange.1, hrange.2⟩
      by_cases h0 : cell b r j = 0
      · rw [if_pos (by rw [hcellj]; exact h0), hrec]
        congr 1
        rw [decide_eq_decide]
        constructor
        · intro hP c hc hjc
          by_cases hcj : c = j
          · subst hcj
            exact ⟨hok1, fun hne => absurd h0 hne⟩
          · exact hP c hc (by omega)
        · intro hP c hc hjc
          exact hP c hc (by omega)
      · rw [if_neg (by rw [hcellj]; exact h0)]
        by_cases hcnt : (rowCells b r).count (cell b r j) > 1
        · rw [if_pos (by rw [hcellj, hrowcount]; exact hcnt)]
          have hP : ¬∀ c, c < 9 → j ≤ c → CellOk b ae r c := by
            intro hP
            obtain ⟨_, hcounts⟩ := hP j hj9 (le_refl j)
            have := (hcounts h0).1
            omega
          rw [decide_eq_false hP]
        · rw [if_neg (by rw [hcellj, hrowcount]; exact hcnt), hcellj,
            getColumn_eq_colCells hd hj9]
          show (if (colCells b j).count (cell b r j) > 1 then some false
            else
              match getSubgrid b r j with
              | none => none
              | some sub =>
                if sub.count (cell b r j) > 1 then some false
                else checkCells b ae r (b.getD r []) (j + 1) ((b.getD r []).drop (j + 1))
              : Option Bool)
            = some (decide (∀ c, c < 9 → j ≤ c → CellOk b ae r c))
          by_cases hccol : (colCells b j).count (cell b r j) > 1
          · rw [if_pos hccol]
            have hP : ¬∀ c, c < 9 → j ≤ c → CellOk b ae r c := by
              intro hP
              obtain ⟨_, hcounts⟩ := hP j hj9 (le_refl j)
              have := (hcounts h0).2.1
              omega
            rw [decide_eq_false hP]
          · rw [if_neg hccol,
              getSubgrid_eq_some hr hj9 (by rw [hd.1]) fun row2 hrow2 => by rw [hd.2 row2 hrow2]]
            show (if (boxCells b r j).count (cell b r j) > 1 then some false
              else checkCells b ae r (b.getD r []) (j + 1) ((b.getD r []).drop (j + 1))
                : Option Bool)
              = some (decide (∀ c, c < 9 → j ≤ c → CellOk b ae r c))
            by_cases hcbox : (boxCells b r j).count (cell b r j) > 1
            · rw [if_pos hcbox]
              have hP : ¬∀ c, c < 9 → j ≤ c → CellOk b ae r c := by
                intro hP
                obtain ⟨_, hcounts⟩ := hP j hj9 (le_refl j)
                have := (hcounts h0).2.2
                omega
              rw [decide_eq_false hP]
            · rw [if_neg hcbox, hrec]
              congr 1
              rw [decide_eq_decide]
              constructor
              · intro hP c hc hjc
                by_cases hcj : c = j
                · subst hcj
                  exact ⟨hok1, fun _ => ⟨by omega, by omega, by omega⟩⟩
                · exact hP c hc (by omega)
              · intro hP c hc hjc
                exact hP c hc (by omega)

theorem checkRows_eq_decide {b : Grid} (hd : Dims9 b) {ae : Bool} :
    ∀ (m i : Nat), m = 9 - i → i ≤ 9 →
      checkRows b ae i (b.drop i)
        = some (decide (∀ r, r < 9 → i ≤ r → ∀ c, c < 9 → CellOk b ae r c)) := by
  intro m
  induction m with
  | zero =>
    intro i hm hi
    have hi9 : i = 9 := by omega
    subst hi9
    rw [List.drop_eq_nil_of_le (by rw [hd.1]), checkRows]
    have hP : ∀ r, r < 9 → 9 ≤ r → ∀ c, c < 9 → CellOk b ae r c :=
      fun r hr h9 => absurd hr (by omega)
    rw [decide_eq_true hP]
  | succ m ih =>
    intro i hm hi
    have hi9 : i < 9 := by omega
    have hib : i < b.length := by
      rw [hd.1]
      exact hi9
    rw [List.drop_eq_getElem_cons hib, checkRows, if_neg (by omega : ¬i > 8),
      ← List.getD_eq_getElem b [] hib]
    have hcells := @checkCells_eq_decide b hd ae i hi9 9 0 rfl (by omega)
    rw [List.drop_zero] at hcells
    rw [hcells]
    by_cases hQ : ∀ c, c < 9 → 0 ≤ c → CellOk b ae i c
    · rw [decide_eq_true hQ]
      show checkRows b ae (i + 1) (b.drop (i + 1))
        = some (decide (∀ r, r < 9 → i ≤ r → ∀ c, c < 9 → CellOk b ae r c))
      rw [ih (i + 1) (by omega) (by omega)]
      congr 1
      rw [decide_eq_decide]
      constructor
      · intro hP r2 hr2 hir2 c hc
        by_cases hri : r2 = i
        · subst hri
          exact hQ c hc (by omega)
        · exact hP r2 hr2 (by omega) c hc
      · intro hP r2 hr2 hir2 c hc
        exact hP r2 hr2 (by omega) c hc
    · rw [decide_eq_false hQ]
      show (some false : Option Bool)
        = some (decide (∀ r, r < 9 → i ≤ r → ∀ c, c < 9 → CellOk b ae r c))
      have hP : ¬∀ r, r < 9 → i ≤ r → ∀ c, c < 9 → CellOk b ae r c := by
        intro hP
        exact hQ fun c hc _ => hP i hi9 (le_refl i) c hc
      rw [decide_eq_false hP]

/-- C5: on every 9 by 9 board, `is_valid_sudoku(board, allow_empty)` returns
`true` exactly when every cell value is in range `[allow_empty ? 0 : 1, 9]`
and every non-zero cell value occurs at most once in its row, its column and
its 3 by 3 subgrid; in particular a board with two `5`s in row 0 and zeros
elsewhere yields `false` for both `allow_empty` settings. -/
theorem is_valid_sudoku_spec :
    (∀ (b : Grid) (ae : Bool), Dims9 b →
      (isValidSudoku b ae = some true ↔ SpecValid b ae)) ∧
    isValidSudoku twoFivesBoard true = some false ∧
    isValidSudoku twoFivesBoard false = some false := by
  refine ⟨?_, by decide, by decide⟩
  intro b ae hd
  unfold isValidSudoku
  have h := @checkRows_eq_decide b hd ae 9 0 rfl (by omega)
  rw [List.drop_zero] at h
  rw [h]
  simp only [Option.some.injEq, decide_eq_true_eq]
  constructor
  · intro hP r hr c hc
    exact hP r hr (by omega) c hc
  · intro hP r hr _ c hc
    exact hP r hr c hc

/-- Witness for C5 at the concrete board `sampleSolved` with
`allow_empty = false`. -/
theorem is_valid_sudoku_spec_witness :
    Dims9 sampleSolved ∧
      (isValidSudoku sampleSolved false = some true ↔ SpecValid sampleSolved false) :=
  ⟨by decide, is_valid_sudoku_spec.1 sampleSolved false (by decide)⟩

/-- C7 (amended): on boards with at least 9 rows, each of length at least 9,
`is_valid_sudoku` always returns a boolean (it never goes out of bounds), and
boards with more than 9 rows, or with any row longer than 9, are reported
invalid. -/
theorem is_valid_sudoku_total_on_wide_boards (b : Grid) (ae : Bool)
    (hlen : 9 ≤ b.length) (hrows : ∀ row ∈ b, 9 ≤ row.length) :
    (isValidSudoku b ae).isSome = true ∧
    (9 < b.length → isValidSudoku b ae = some false) ∧
    ((∃ row ∈ b, 9 < row.length) → isValidSudoku b ae = some false) := by
  have hsome := @checkRows_isSome b ae hlen hrows b 0
  refine ⟨hsome, ?_, ?_⟩
  · intro hgt
    obtain ⟨bb, hbb⟩ := Option.isSome_iff_exists.mp hsome
    cases bb with
    | false => exact hbb
    | true =>
      have hb : checkRows b ae 0 b = some true := hbb
      have hbound := checkRows_some_true_bound b 0 hb
        (by
          intro he
          rw [he] at hgt
          simp at hgt)
      omega
  · rintro ⟨row, hrow, hrowlen⟩
    obtain ⟨bb, hbb⟩ := Option.isSome_iff_exists.mp hsome
    cases bb with
    | false => exact hbb
    | true =>
      have hb : checkRows b ae 0 b = some true := hbb
      have := checkRows_some_true_rowlen b 0 hb row hrow
      omega

/-- A well-formed 9 by 9 board extended with a tenth, overlong row: malformed
input on which the validator still returns a boolean (`false`). -/
def overSizedBoard : Grid := sampleSolved ++ [List.replicate 10 (0 : Int)]

/-- Witness for C7 at the concrete malformed board `overSizedBoard`. -/
theorem is_valid_sudoku_total_on_wide_boards_witness :
    (9 ≤ overSizedBoard.length ∧ ∀ row ∈ overSizedBoard, 9 ≤ row.length) ∧
    ((isValidSudoku overSizedBoard true).isSome = true ∧
      (9 < overSizedBoard.length → isValidSudoku overSizedBoard true = some false) ∧
      ((∃ row ∈ overSizedBoard, 9 < row.length) →
        isValidSudoku overSizedBoard true = some false)) :=
  ⟨⟨by decide, by decide⟩,
    is_valid_sudoku_total_on_wide_boards overSizedBoard true (by decide) (by decide)⟩

/-- Counterexample to C7 as stated: on the malformed board `[[1]]` the
validator raises `IndexError` (modelled as `none`) — the subgrid probe reads
`board[0][1]` — instead of returning a boolean, for both `allow_empty`
settings. -/
theorem is_valid_sudoku_raises_on_one_cell_board :
    isValidSudoku oneCellBoard true = none ∧ isValidSudoku oneCellBoard false = none := by
  constructor <;> decide

/-- C10 (amended): the one-sided dimension check lets some undersized grids
through: the empty board `[]` yields `true` for both `allow_empty` settings,
and an undersized board whose probes stay in bounds (three full, valid rows)
also yields `true` for both settings. -/
theorem undersized_boards_not_rejected :
    isValidSudoku ([] : Grid) true = some true ∧
    isValidSudoku ([] : Grid) false = some true ∧
    isValidSudoku threeRowBoard true = some true ∧
    isValidSudoku threeRowBoard false = some true :=
  ⟨by decide, by decide, by decide, by decide⟩

/-- Counterexample to C10 as stated: a board with fewer than 9 rows of 9
duplicate-free in-range values does not always yield `true` — on the
single-row board the subgrid probe reads `board[1]` and raises `IndexError`
(modelled as `none`). -/
theorem one_row_board_raises :
    isValidSudoku oneRowBoard true = none ∧ isValidSudoku oneRowBoard false = none := by
  constructor <;> decide

/-- C6: `get_incorrect_squares(solved, candidate)` returns exactly the
coordinates at which `candidate` is non-zero and differs from `solved`;
coordinates where `candidate` holds 0 are never included.  On the spec's
example (candidate equal to solved except `(0,0)` changed `1 -> 2` and
`(1,1)` emptied) the result is exactly `{(0, 0)}`. -/
theorem get_incorrect_squares_spec :
    (∀ (s p : Grid), Dims9 s → Dims9 p → ∀ (r c : Nat),
      ((r, c) ∈ getIncorrectSquares s p ↔
        r < 9 ∧ c < 9 ∧ cell p r c ≠ 0 ∧ cell p r c ≠ cell s r c)) ∧
    getIncorrectSquares sampleSolved diffCandidate = {(0, 0)} := by
  constructor
  · intro s p _ hdp r c
    unfold getIncorrectSquares
    rw [List.mem_toFinset, List.mem_flatMap]
    constructor
    · rintro ⟨r2, hr2, hmem⟩
      rw [List.mem_filterMap] at hmem
      obtain ⟨c2, hc2, hite⟩ := hmem
      by_cases hcond : cell p r2 c2 ≠ 0 ∧ cell p r2 c2 ≠ cell s r2 c2
      · rw [if_pos hcond] at hite
        have he : (r2, c2) = (r, c) := by simpa using hite
        obtain ⟨e1, e2⟩ := (Prod.mk.injEq ..).mp he
        subst e1; subst e2
        have hr9 : r2 < 9 := by
          rw [← hdp.1]
          exact List.mem_range.mp hr2
        have hc9 : c2 < 9 := by
          rw [← row_length hdp hr9]
          exact List.mem_range.mp hc2
        exact ⟨hr9, hc9, hcond.1, hcond.2⟩
      · rw [if_neg hcond] at hite
        exact absurd hite (by simp)
    · rintro ⟨hr, hc, h0, hne⟩
      refine ⟨r, List.mem_range.mpr (by rw [hdp.1]; exact hr), ?_⟩
      rw [List.mem_filterMap]
      exact ⟨c, List.mem_range.mpr (by rw [row_length hdp hr]; exact hc),
        by rw [if_pos ⟨h0, hne⟩]⟩
  · decide

/-- Witness for C6 at the spec's example boards and coordinate `(0, 0)`. -/
theorem get_incorrect_squares_spec_witness :
    (Dims9 sampleSolved ∧ Dims9 diffCandidate) ∧
    ((0, 0) ∈ getIncorrectSquares sampleSolved diffCandidate ↔
      0 < 9 ∧ 0 < 9 ∧ cell diffCandidate 0 0 ≠ 0 ∧
        cell diffCandidate 0 0 ≠ cell sampleSolved 0 0) :=
  ⟨⟨by decide, by decide⟩,
    get_incorrect_squares_spec.1 sampleSolved diffCandidate (by decide) (by decide) 0 0⟩

/-! ## Correctness of the randomized solver -/

theorem tryNums_sound {b : Grid} (hd : Dims9 b) (hcr : CellsInRange b) (hl : LegalGrid b)
    {r c : Nat} (hr : r < 9) (hc : c < 9) (h0 : cell b r c = 0)
    {solver : Grid → Nat → Option Grid × Nat}
    (hsolver : ∀ b2 ix g ix2, Dims9 b2 → CellsInRange b2 → LegalGrid b2 →
      solver b2 ix = (some g, ix2) → IsCompletion b2 g) :
    ∀ (nums : List Int), (∀ v ∈ nums, v ∈ digits) →
      ∀ ix g ix2, tryNums solver b r c nums ix = (some g, ix2) → IsCompletion b g := by
  intro nums
  induction nums with
  | nil =>
    intro _ ix g ix2 h
    rw [tryNums] at h
    exact absurd h (by simp)
  | cons num rest ih =>
    intro hnums ix g ix2 h
    have hnd : num ∈ digits := hnums num (List.mem_cons_self _ _)
    have hrest : ∀ v ∈ rest, v ∈ digits := fun v hv => hnums v (List.mem_cons_of_mem _ hv)
    rw [tryNums] at h
    by_cases hmv : isValidMove b r c num = true
    · rw [if_pos hmv] at h
      cases hres : solver (setCell b r c num) ix with
      | mk og ixr =>
        rw [hres] at h
        cases og with
        | some g2 =>
          replace h : ((some g2 : Option Grid), ixr) = (some g, ix2) := h
          obtain ⟨h1, _⟩ := (Prod.mk.injEq ..).mp h
          have h19 := (mem_digits_iff num).mp hnd
          have hcomp := hsolver (setCell b r c num) ix g2 ixr
            (dims9_setCell hd hr num)
            (cellsInRange_setCell hd hcr hr hc (by omega) h19.2)
            (legalGrid_setCell hd hl hr hc h0 hnd hmv) hres
          rw [← Option.some.inj h1]
          exact (completion_step hd hr hc h0 g2).mpr ⟨num, hnd, hmv, hcomp⟩
        | none =>
          replace h : tryNums solver b r c rest ixr = (some g, ix2) := h
          exact ih hrest ixr g ix2 h
    · rw [if_neg hmv] at h
      exact ih hrest ix g ix2 h

theorem solveBoardF_sound (supply : Nat → List Int)
    (hsup : ∀ k, ∀ v ∈ supply k, v ∈ digits) :
    ∀ (fuel : Nat) (b : Grid) (ix : Nat) (g : Grid) (ix2 : Nat),
      Dims9 b → CellsInRange b → LegalGrid b →
      solveBoardF supply fuel b ix = (some g, ix2) → IsCompletion b g := by
  intro fuel
  induction fuel with
  | zero =>
    intro b ix g ix2 _ _ _ h
    rw [solveBoardF] at h
    exact absurd h (by simp)
  | succ fuel ih =>
    intro b ix g ix2 hd hcr hl h
    rw [solveBoardF] at h
    cases hfe : findEmpty b with
    | none =>
      rw [hfe] at h
      replace h : ((some b : Option Grid), ix) = (some g, ix2) := h
      obtain ⟨h1, _⟩ := (Prod.mk.injEq ..).mp h
      rw [← Option.some.inj h1]
      exact isCompletion_self hd hcr hl (findEmpty_eq_none_iff.mp hfe)
    | some rc =>
      obtain ⟨r, c⟩ := rc
      rw [hfe] at h
      obtain ⟨hr, hc, h0⟩ := findEmpty_eq_some hfe
      replace h : tryNums (solveBoardF supply fuel) b r c (supply ix) (ix + 1)
          = (some g, ix2) := h
      exact tryNums_sound hd hcr hl hr hc h0
        (fun b2 jx g2 jx2 hd2 hcr2 hl2 hh => ih b2 jx g2 jx2 hd2 hcr2 hl2 hh)
        (supply ix) (hsup ix) (ix + 1) g ix2 h

theorem tryNums_complete {b : Grid} (hd : Dims9 b) {r c : Nat} (hr : r < 9) (hc : c < 9)
    (h0 : cell b r c = 0)
    {solver : Grid → Nat → Option Grid × Nat}
    (hchild : ∀ v ∈ digits, isValidMove b r c v = true →
      (∃ x, IsCompletion (setCell b r c v) x) →
      ∀ ix, ∃ g ix2, solver (setCell b r c v) ix = (some g, ix2)) :
    ∀ (nums : List Int), (∀ v ∈ nums, v ∈ digits) →
      (∃ v ∈ nums, isValidMove b r c v = true ∧ ∃ x, IsCompletion (setCell b r c v) x) →
      ∀ ix, ∃ g ix2, tryNums solver b r c nums ix = (some g, ix2) := by
  intro nums
  induction nums with
  | nil =>
    intro _ hgood _
    obtain ⟨v, hv, _⟩ := hgood
    exact absurd hv (List.not_mem_nil v)
  | cons num rest ih =>
    intro hnums hgood ix
    have hnd : num ∈ digits := hnums num (List.mem_cons_self _ _)
    have hrest : ∀ v ∈ rest, v ∈ digits := fun v hv => hnums v (List.mem_cons_of_mem _ hv)
    rw [tryNums]
    by_cases hmv : isValidMove b r c num = true
    · rw [if_pos hmv]
      cases hres : solver (setCell b r c num) ix with
      | mk og ixr =>
        cases og with
        | some g2 => exact ⟨g2, ixr, rfl⟩
        | none =>
          have hnum_bad : ¬∃ x, IsCompletion (setCell b r c num) x := by
            intro hx
            obtain ⟨g3, ix3, hg3⟩ := hchild num hnd hmv hx ix
            rw [hres] at hg3
            exact absurd hg3 (by simp)
          obtain ⟨v, hv, hmv2, hx2⟩ := hgood
          have hvrest : v ∈ rest := by
            rcases List.mem_cons.mp hv with he | hm
            · subst he
              exact absurd hx2 hnum_bad
            · exact hm
          show ∃ g ix2, tryNums solver b r c rest ixr = (some g, ix2)
          exact ih hrest ⟨v, hvrest, hmv2, hx2⟩ ixr
    · rw [if_neg hmv]
      obtain ⟨v, hv, hmv2, hx2⟩ := hgood
      have hvrest : v ∈ rest := by
        rcases List.mem_cons.mp hv with he | hm
        · subst he
          exact absurd hmv2 hmv
        · exact hm
      exact ih hrest ⟨v, hvrest, hmv2, hx2⟩ ix

theorem solveBoardF_complete (supply : Nat → List Int)
    (hsup : ∀ k, (supply k).Perm digits) :
    ∀ (fuel : Nat) (b : Grid) (ix : Nat), numZeros b < fuel →
      Dims9 b → CellsInRange b → LegalGrid b →
      (∃ x, IsCompletion b x) →
      ∃ g ix2, solveBoardF supply fuel b ix = (some g, ix2) := by
  intro fuel
  induction fuel with
  | zero =>
    intro b ix hf
    exact absurd hf (Nat.not_lt_zero _)
  | succ fuel ih =>
    intro b ix hf hd hcr hl hex
    rw [solveBoardF]
    cases hfe : findEmpty b with
    | none => exact ⟨b, ix, rfl⟩
    | some rc =>
      obtain ⟨r, c⟩ := rc
      obtain ⟨hr, hc, h0⟩ := findEmpty_eq_some hfe
      obtain ⟨x, hx⟩ := hex
      obtain ⟨v, hvd, hmv, hcomp⟩ := (completion_step hd hr hc h0 x).mp hx
      have hsupd : ∀ w ∈ supply ix, w ∈ digits := fun w hw => ((hsup ix).mem_iff).mp hw
      have hvsup : v ∈ supply ix := ((hsup ix).mem_iff).mpr hvd
      show ∃ g ix2, tryNums (solveBoardF supply fuel) b r c (supply ix) (ix + 1)
        = (some g, ix2)
      refine tryNums_complete hd hr hc h0 ?_ (supply ix) hsupd
        ⟨v, hvsup, hmv, x, hcomp⟩ (ix + 1)
      intro w hwd hwmv hwex jx
      have h19 := (mem_digits_iff w).mp hwd
      exact ih (setCell b r c w) jx (numZeros_lt_fuel_step hd hr hc h0 (by omega) hf)
        (dims9_setCell hd hr w) (cellsInRange_setCell hd hcr hr hc (by omega) h19.2)
        (legalGrid_setCell hd hl hr hc h0 hwd hwmv) hwex

theorem unit_perm {l : List Int} (hlen : l.length = 9) (hsub : ∀ v ∈ l, v ∈ digits)
    (hcount : ∀ v ∈ digits, l.count v ≤ 1) : l.Perm digits := by
  have hnd : l.Nodup := by
    rw [List.nodup_iff_count_le_one]
    intro a
    by_cases ha : a ∈ digits
    · exact hcount a ha
    · have hnotmem : a ∉ l := fun hal => ha (hsub a hal)
      rw [List.count_eq_zero.mpr hnotmem]
      omega
  exact (List.subperm_of_subset hnd fun v hv => hsub v hv).perm_of_length_le
    (by rw [hlen, digits_length])

/-- C3: from the all-empty starting grid, `solve_board` — for every possible
outcome of its `random.shuffle` calls (any stream of permutations of the
digits) — returns a complete grid in which every row, every column and every
3 by 3 subgrid is exactly (a permutation of) the digits `1..9`; the
`False` (`NotSolvable`) outcome is unreachable from the all-empty input. -/
theorem solve_board_from_empty (supply : Nat → List Int)
    (hsup : ∀ k, (supply k).Perm digits) :
    ∃ g, solveBoard supply emptyGrid = some g ∧ SolvedGrid g ∧
      (∀ r < 9, (rowCells g r).Perm digits) ∧
      (∀ c < 9, (colCells g c).Perm digits) ∧
      (∀ r < 9, ∀ c < 9, (boxCells g r c).Perm digits) := by
  have hd : Dims9 emptyGrid := by decide
  have hcr : CellsInRange emptyGrid := by decide
  have hl : LegalGrid emptyGrid := by decide
  have hfuel : numZeros emptyGrid < 82 := by
    have := numZeros_le emptyGrid
    omega
  have hex : ∃ x, IsCompletion emptyGrid x := ⟨sampleSolved, by decide⟩
  obtain ⟨g, ix2, hg⟩ := solveBoardF_complete supply hsup 82 emptyGrid 0 hfuel hd hcr hl hex
  have hcomp : IsCompletion emptyGrid g :=
    solveBoardF_sound supply (fun k w hw => ((hsup k).mem_iff).mp hw) 82 emptyGrid 0 g ix2
      hd hcr hl hg
  obtain ⟨hdg, hrange, hlg, _⟩ := hcomp
  have hfull : FullGrid g := by
    intro r hr c hc
    have := hrange r hr c hc
    omega
  have hcrg : CellsInRange g := by
    intro r hr c hc
    have := hrange r hr c hc
    exact ⟨by omega, this.2⟩
  refine ⟨g, ?_, ⟨hdg, hcrg, hlg, hfull⟩, ?_, ?_, ?_⟩
  · unfold solveBoard
    rw [hg]
  · intro r hr
    apply unit_perm
    · simp [rowCells]
    · intro v hv
      obtain ⟨c, hc, he⟩ := mem_rowCells_iff.mp hv
      rw [← he]
      exact (mem_digits_iff _).mpr ⟨(hrange r hr c hc).1, (hrange r hr c hc).2⟩
    · intro v hvd
      exact (hlg v hvd).1 r hr
  · intro c hc
    apply unit_perm
    · simp [colCells]
    · intro v hv
      obtain ⟨r, hr, he⟩ := mem_colCells_iff.mp hv
      rw [← he]
      exact (mem_digits_iff _).mpr ⟨(hrange r hr c hc).1, (hrange r hr c hc).2⟩
    · intro v hvd
      exact (hlg v hvd).2.1 c hc
  · intro r hr c hc
    apply unit_perm
    · rw [boxCells_eq_map]
      simp
    · intro v hv
      obtain ⟨k, hk, he⟩ := mem_boxCells_iff.mp hv
      rw [← he]
      have hr2 : 3 * (r / 3) + k / 3 < 9 := by omega
      have hc2 : 3 * (c / 3) + k % 3 < 9 := by omega
      exact (mem_digits_iff _).mpr ⟨(hrange _ hr2 _ hc2).1, (hrange _ hr2 _ hc2).2⟩
    · intro v hvd
      exact (hlg v hvd).2.2 r hr c hc

/-- Witness for C3: the constant supply whose every shuffle outcome is
`1..9` in order. -/
theorem solve_board_from_empty_witness :
    (∀ k : Nat, ((fun _ : Nat => digits) k).Perm digits) ∧
    (∃ g, solveBoard (fun _ : Nat => digits) emptyGrid = some g ∧ SolvedGrid g ∧
      (∀ r < 9, (rowCells g r).Perm digits) ∧
      (∀ c < 9, (colCells g c).Perm digits) ∧
      (∀ r < 9, ∀ c < 9, (boxCells g r c).Perm digits)) :=
  ⟨fun _ => List.Perm.refl digits,
    solve_board_from_empty (fun _ => digits) fun _ => List.Perm.refl digits⟩

end Sudoku
